import Mathlib

/-!
Verification of the data-capsules library (src/src/lib.rs).

Bytes are modelled as natural numbers below 256 inside `List Nat`.
Machine integers (`u32`, `usize`) are modelled as `Nat` with explicit
`% 2^32` / `% 2^64` at the points where the Rust code truncates or may
wrap.  External collaborators that are not part of this repository
(the AES-256-GCM cipher from the `aes_gcm` crate and the gzip codec
from the `flate2` crate) are taken as function parameters; theorems
that depend on them assume exactly their documented inverse laws.
-/

/-- Two to the 32, the modulus of `u32` arithmetic. -/
def U32 : Nat := 4294967296

/-- Two to the 64, the modulus of `usize` arithmetic (64-bit target). -/
def U64 : Nat := 18446744073709551616

/-- `u32::to_le_bytes`: 4 little-endian bytes (truncates above 2^32). -/
def le32 (x : Nat) : List Nat :=
  [x % 256, x / 256 % 256, x / 65536 % 256, x / 16777216 % 256]

/-- `u32::from_le_bytes` on a 4-byte list. -/
def leDecode4 (l : List Nat) : Nat :=
  l.getD 0 0 + 256 * l.getD 1 0 + 65536 * l.getD 2 0 + 16777216 * l.getD 3 0

/-- `u32::to_be_bytes`: 4 big-endian bytes (truncates above 2^32). -/
def be32 (x : Nat) : List Nat :=
  [x / 16777216 % 256, x / 65536 % 256, x / 256 % 256, x % 256]

/-- `u64::to_be_bytes`: 8 big-endian bytes. -/
def be64 (x : Nat) : List Nat :=
  [x / 72057594037927936 % 256, x / 281474976710656 % 256,
   x / 1099511627776 % 256, x / 4294967296 % 256,
   x / 16777216 % 256, x / 65536 % 256, x / 256 % 256, x % 256]

theorem le32_length (x : Nat) : (le32 x).length = 4 := rfl

theorem be32_length (x : Nat) : (be32 x).length = 4 := rfl

theorem leDecode4_le32 (x : Nat) : leDecode4 (le32 x) = x % U32 := by
  simp only [le32, leDecode4, List.getD, U32]
  simp only [List.get?, Option.getD]
  omega

theorem le32_mod (x : Nat) : le32 (x % U32) = le32 x := by
  simp only [le32, U32, List.cons.injEq, and_true]
  refine ⟨?_, ?_, ?_, ?_⟩ <;> omega

theorem le32_lt (x : Nat) : ∀ b ∈ le32 x, b < 256 := by
  intro b hb
  simp only [le32, List.mem_cons, List.not_mem_nil, or_false] at hb
  rcases hb with h | h | h | h <;> omega

/-- Truncate to 32 bits. -/
def w32 (x : Nat) : Nat := x % U32

/-- 32-bit right rotation (operand assumed below 2^32). -/
def rotr32 (n x : Nat) : Nat := w32 ((x >>> n) ||| (x <<< (32 - n)))

/-- One step of the reflected CRC-32 (IEEE) bit loop, polynomial 0xEDB88320. -/
def crc32Bit (c : Nat) : Nat :=
  if c % 2 = 1 then (c >>> 1) ^^^ 0xEDB88320 else c >>> 1

/-- Feed one byte into the CRC-32 state. -/
def crc32Byte (c b : Nat) : Nat :=
  (List.range 8).foldl (fun s _ => crc32Bit s) (c ^^^ (b % 256))

/-- `crc32fast::hash`: standard CRC-32 (IEEE) of a byte string. -/
def crc32 (data : List Nat) : Nat :=
  (data.foldl crc32Byte 0xFFFFFFFF) ^^^ 0xFFFFFFFF

/-- The eight initial SHA-256 state words (FIPS 180-4). -/
def sha256InitState : Nat × Nat × Nat × Nat × Nat × Nat × Nat × Nat :=
  (1779033703, 3144134277, 1013904242, 2773480762,
   1359893119, 2600822924, 528734635, 1541459225)

/-- The 64 SHA-256 round constants (FIPS 180-4). -/
def sha256K : List Nat :=
  [1116352408, 1899447441, 3049323471, 3921009573, 961987163, 1508970993,
   2453635748, 2870763221, 3624381080, 310598401, 607225278, 1426881987,
   1925078388, 2162078206, 2614888103, 3248222580, 3835390401, 4022224774,
   264347078, 604807628, 770255983, 1249150122, 1555081692, 1996064986,
   2554220882, 2821834349, 2952996808, 3210313671, 3336571891, 3584528711,
   113926993, 338241895, 666307205, 773529912, 1294757372, 1396182291,
   1695183700, 1986661051, 2177026350, 2456956037, 2730485921, 2820302411,
   3259730800, 3345764771, 3516065817, 3600352804, 4094571909, 275423344,
   430227734, 506948616, 659060556, 883997877, 958139571, 1322822218,
   1537002063, 1747873779, 1955562222, 2024104815, 2227730452, 2361852424,
   2428436474, 2756734187, 3204031479, 3329325298]

/-- SHA-256 big sigma 0. -/
def bSig0 (x : Nat) : Nat := rotr32 2 x ^^^ rotr32 13 x ^^^ rotr32 22 x

/-- SHA-256 big sigma 1. -/
def bSig1 (x : Nat) : Nat := rotr32 6 x ^^^ rotr32 11 x ^^^ rotr32 25 x

/-- SHA-256 small sigma 0. -/
def sSig0 (x : Nat) : Nat := rotr32 7 x ^^^ rotr32 18 x ^^^ (x >>> 3)

/-- SHA-256 small sigma 1. -/
def sSig1 (x : Nat) : Nat := rotr32 17 x ^^^ rotr32 19 x ^^^ (x >>> 10)

/-- SHA-256 choose function. -/
def sha256Ch (x y z : Nat) : Nat := (x &&& y) ^^^ ((x ^^^ 0xFFFFFFFF) &&& z)

/-- SHA-256 majority function. -/
def sha256Maj (x y z : Nat) : Nat := (x &&& y) ^^^ (x &&& z) ^^^ (y &&& z)

/-- Split the padded message into 64-byte blocks. -/
def splitBlocks (l : List Nat) : List (List Nat) :=
  if h : l = [] then []
  else l.take 64 :: splitBlocks (l.drop 64)
termination_by l.length
decreasing_by
  simp only [List.length_drop]
  have : 0 < l.length := List.length_pos.mpr h
  omega

/-- SHA-256 message padding: 0x80, zeros, then the 64-bit bit length. -/
def sha256Pad (msg : List Nat) : List Nat :=
  msg ++ [128] ++ List.replicate ((64 - (msg.length + 9) % 64) % 64) 0
      ++ be64 (8 * msg.length)

/-- Read the sixteen initial 32-bit big-endian schedule words of a block. -/
def blockWords (block : List Nat) : List Nat :=
  (List.range 16).map fun i =>
    16777216 * block.getD (4 * i) 0 + 65536 * block.getD (4 * i + 1) 0
      + 256 * block.getD (4 * i + 2) 0 + block.getD (4 * i + 3) 0

/-- Append the next message-schedule word. -/
def scheduleStep (w : List Nat) : List Nat :=
  w ++ [w32 (sSig1 (w.getD (w.length - 2) 0) + w.getD (w.length - 7) 0
      + sSig0 (w.getD (w.length - 15) 0) + w.getD (w.length - 16) 0)]

/-- The full 64-word message schedule of a block. -/
def sha256Schedule (block : List Nat) : List Nat :=
  (List.range 48).foldl (fun w _ => scheduleStep w) (blockWords block)

/-- One SHA-256 compression round. -/
def sha256Round (st : Nat × Nat × Nat × Nat × Nat × Nat × Nat × Nat)
    (wk : Nat × Nat) : Nat × Nat × Nat × Nat × Nat × Nat × Nat × Nat :=
  match st with
  | (a, b, c, d, e, f, g, h) =>
    let t1 := w32 (h + bSig1 e + sha256Ch e f g + wk.2 + wk.1)
    let t2 := w32 (bSig0 a + sha256Maj a b c)
    (w32 (t1 + t2), a, b, c, w32 (d + t1), e, f, g)

/-- Process one 64-byte block of the SHA-256 input. -/
def sha256Block (st : Nat × Nat × Nat × Nat × Nat × Nat × Nat × Nat)
    (block : List Nat) : Nat × Nat × Nat × Nat × Nat × Nat × Nat × Nat :=
  match st, ((sha256Schedule block).zip sha256K).foldl sha256Round st with
  | (a, b, c, d, e, f, g, h), (a2, b2, c2, d2, e2, f2, g2, h2) =>
    (w32 (a + a2), w32 (b + b2), w32 (c + c2), w32 (d + d2),
     w32 (e + e2), w32 (f + f2), w32 (g + g2), w32 (h + h2))

/-- SHA-256 digest of a byte string, as 32 bytes. -/
def sha256 (msg : List Nat) : List Nat :=
  match (splitBlocks (sha256Pad msg)).foldl sha256Block sha256InitState with
  | (a, b, c, d, e, f, g, h) =>
    be32 a ++ be32 b ++ be32 c ++ be32 d ++ be32 e ++ be32 f ++ be32 g ++ be32 h

theorem sha256_length (msg : List Nat) : (sha256 msg).length = 32 := by
  unfold sha256
  split
  simp [be32]

/-- Lower-case hex digit of a nibble. -/
def hexDigitChar (n : Nat) : Char :=
  Char.ofNat (if n < 10 then 48 + n else 87 + n)

/-- `hex::encode`: lower-case hex string of a byte string. -/
def hexEncode (bytes : List Nat) : String :=
  String.mk ((bytes.map fun b => [hexDigitChar (b / 16), hexDigitChar (b % 16)]).join)

/-- The five legal capsule sizes, smallest first (`CAPSULE_SIZES`). -/
def CAPSULE_SIZES : List Nat := [262144, 1048576, 10485760, 104857600, 1048576000]

/-- The padding sentinel `PADDING_MARKER` = `[0xFF, 0xFF, 0xFF, 0xFF]`. -/
def PADDING_MARKER : List Nat := [255, 255, 255, 255]

/-- The capsule magic `CAPSULE_MAGIC`, ASCII `DIGCAP01`. -/
def CAPSULE_MAGIC : List Nat := [68, 73, 71, 67, 65, 80, 48, 49]

/-- `CAPSULE_HEADER_SIZE` in bytes. -/
def CAPSULE_HEADER_SIZE : Nat := 44

/-- `CAPSULE_VERSION`. -/
def CAPSULE_VERSION : Nat := 1

/-- `FLAG_ENCRYPTED`. -/
def FLAG_ENCRYPTED : Nat := 1

/-- `FLAG_COMPRESSED`. -/
def FLAG_COMPRESSED : Nat := 2

/-- The error taxonomy of the library (`CapsuleError`). -/
inductive CapsuleError where
  | InvalidFormat : CapsuleError
  | UnsupportedSize : CapsuleError
  | ChecksumMismatch : CapsuleError
  | ConsensusViolation : String → CapsuleError
  | CompressionFailed : CapsuleError
  | DecryptionFailed : CapsuleError
  | EncryptionFailed : CapsuleError
  | IoError : CapsuleError
deriving DecidableEq, Repr

/-- The 44-byte capsule header (`CapsuleHeader`); `magic` and `reserved`
are byte lists, every numeric field is a `u32` value. -/
structure CapsuleHeader where
  magic : List Nat
  version : Nat
  capsule_index : Nat
  capsule_size : Nat
  data_size : Nat
  flags : Nat
  reserved : List Nat
  header_checksum : Nat
  data_offset : Nat
deriving DecidableEq, Repr

/-- `CapsuleHeader::calculate_checksum_without_field`: CRC-32 of all on-wire
fields in order, skipping `header_checksum`. -/
def CapsuleHeader.calculate_checksum_without_field (h : CapsuleHeader) : Nat :=
  crc32 (h.magic ++ le32 h.version ++ le32 h.capsule_index ++ le32 h.capsule_size
      ++ le32 h.data_size ++ le32 h.flags ++ h.reserved ++ le32 h.data_offset)

/-- The header value built by `CapsuleHeader::new` before the checksum is
filled in (it starts as 0 and is then overwritten). -/
def CapsuleHeader.headerBase (capsule_index capsule_size data_size : Nat)
    (encrypted compressed : Bool) : CapsuleHeader :=
  { magic := CAPSULE_MAGIC, version := CAPSULE_VERSION,
    capsule_index := capsule_index, capsule_size := capsule_size,
    data_size := data_size,
    flags := (if encrypted then FLAG_ENCRYPTED else 0)
      ||| (if compressed then FLAG_COMPRESSED else 0),
    reserved := List.replicate 8 0, header_checksum := 0,
    data_offset := CAPSULE_HEADER_SIZE }

/-- `CapsuleHeader::new`: build a header with flags from the two booleans and
the checksum filled in. -/
def CapsuleHeader.new (capsule_index capsule_size data_size : Nat)
    (encrypted compressed : Bool) : CapsuleHeader :=
  { CapsuleHeader.headerBase capsule_index capsule_size data_size encrypted compressed
    with header_checksum :=
      (CapsuleHeader.headerBase capsule_index capsule_size data_size encrypted
        compressed).calculate_checksum_without_field }

/-- `CapsuleHeader::to_bytes`: 44 bytes, little-endian fields, magic first. -/
def CapsuleHeader.to_bytes (h : CapsuleHeader) : List Nat :=
  h.magic ++ le32 h.version ++ le32 h.capsule_index ++ le32 h.capsule_size
    ++ le32 h.data_size ++ le32 h.flags ++ h.reserved
    ++ le32 h.header_checksum ++ le32 h.data_offset

/-- The raw field parse performed by `CapsuleHeader::from_bytes` (no checks). -/
def headerFieldsOf (bs : List Nat) : CapsuleHeader :=
  { magic := bs.take 8,
    version := leDecode4 ((bs.drop 8).take 4),
    capsule_index := leDecode4 ((bs.drop 12).take 4),
    capsule_size := leDecode4 ((bs.drop 16).take 4),
    data_size := leDecode4 ((bs.drop 20).take 4),
    flags := leDecode4 ((bs.drop 24).take 4),
    reserved := (bs.drop 28).take 8,
    header_checksum := leDecode4 ((bs.drop 36).take 4),
    data_offset := leDecode4 ((bs.drop 40).take 4) }

/-- `CapsuleHeader::from_bytes`: length check, magic check, field parse,
CRC verification. -/
def CapsuleHeader.from_bytes (bs : List Nat) : Except CapsuleError CapsuleHeader :=
  if bs.length < CAPSULE_HEADER_SIZE then .error .InvalidFormat
  else if bs.take 8 ≠ CAPSULE_MAGIC then .error .InvalidFormat
  else
    let h := headerFieldsOf bs
    if h.header_checksum ≠ h.calculate_checksum_without_field then
      .error .ChecksumMismatch
    else .ok h

theorem crc32Bit_lt {c : Nat} (hc : c < U32) : crc32Bit c < U32 := by
  unfold crc32Bit
  have h1 : c >>> 1 < U32 := by
    rw [Nat.shiftRight_eq_div_pow]
    omega
  split
  · exact Nat.xor_lt_two_pow (n := 32) h1 (by norm_num [U32])
  · exact h1

theorem crc32Byte_lt {c : Nat} (b : Nat) (hc : c < U32) : crc32Byte c b < U32 := by
  unfold crc32Byte
  have h0 : c ^^^ b % 256 < U32 :=
    Nat.xor_lt_two_pow (n := 32) hc (by have := Nat.mod_lt b (y := 256) (by norm_num [U32]); omega)
  simp only [List.range_succ, List.foldl_append, List.foldl_cons, List.foldl_nil,
    List.range_zero]
  exact crc32Bit_lt (crc32Bit_lt (crc32Bit_lt (crc32Bit_lt (crc32Bit_lt
    (crc32Bit_lt (crc32Bit_lt (crc32Bit_lt h0)))))))

theorem crc32_lt (data : List Nat) : crc32 data < U32 := by
  unfold crc32
  have : ∀ c, c < U32 → data.foldl crc32Byte c < U32 := by
    induction data with
    | nil => intro c hc; simpa using hc
    | cons b rest ih =>
      intro c hc
      simpa using ih (crc32Byte c b) (crc32Byte_lt b hc)
  exact Nat.xor_lt_two_pow (n := 32) (this 0xFFFFFFFF (by norm_num [U32])) (by norm_num [U32])

theorem to_bytes_length (h : CapsuleHeader) (hm : h.magic.length = 8)
    (hr : h.reserved.length = 8) : h.to_bytes.length = 44 := by
  simp [CapsuleHeader.to_bytes, le32, hm, hr]

/-- The effect of parsing a serialized header: every `u32` field comes back
reduced modulo 2^32. -/
def truncHeader (h : CapsuleHeader) : CapsuleHeader :=
  { magic := h.magic, version := h.version % U32,
    capsule_index := h.capsule_index % U32, capsule_size := h.capsule_size % U32,
    data_size := h.data_size % U32, flags := h.flags % U32,
    reserved := h.reserved, header_checksum := h.header_checksum % U32,
    data_offset := h.data_offset % U32 }

theorem headerFieldsOf_to_bytes (h : CapsuleHeader) (hm : h.magic.length = 8)
    (hr : h.reserved.length = 8) : headerFieldsOf h.to_bytes = truncHeader h := by
  have hb : h.to_bytes = h.magic ++ (le32 h.version ++ (le32 h.capsule_index
      ++ (le32 h.capsule_size ++ (le32 h.data_size ++ (le32 h.flags ++ (h.reserved
      ++ (le32 h.header_checksum ++ le32 h.data_offset))))))) := by
    simp [CapsuleHeader.to_bytes, List.append_assoc]
  have step : ∀ (x : Nat) (r : List Nat), (le32 x ++ r).drop 4 = r :=
    fun x r => List.drop_left' (le32_length x)
  rw [hb]
  have d8 : (h.magic ++ (le32 h.version ++ (le32 h.capsule_index
      ++ (le32 h.capsule_size ++ (le32 h.data_size ++ (le32 h.flags ++ (h.reserved
      ++ (le32 h.header_checksum ++ le32 h.data_offset)))))))).drop 8
      = le32 h.version ++ (le32 h.capsule_index ++ (le32 h.capsule_size
      ++ (le32 h.data_size ++ (le32 h.flags ++ (h.reserved
      ++ (le32 h.header_checksum ++ le32 h.data_offset)))))) := List.drop_left' hm
  have d12 := ((List.drop_drop 4 8 _).symm.trans
    ((congrArg (List.drop 4) d8).trans (step _ _)) :
    (h.magic ++ (le32 h.version ++ (le32 h.capsule_index ++ (le32 h.capsule_size
      ++ (le32 h.data_size ++ (le32 h.flags ++ (h.reserved
      ++ (le32 h.header_checksum ++ le32 h.data_offset)))))))).drop (8 + 4) = _)
  have d16 := ((List.drop_drop 4 12 _).symm.trans
    ((congrArg (List.drop 4) d12).trans (step _ _)) : (_ : List Nat).drop (12 + 4) = _)
  have d20 := ((List.drop_drop 4 16 _).symm.trans
    ((congrArg (List.drop 4) d16).trans (step _ _)) : (_ : List Nat).drop (16 + 4) = _)
  have d24 := ((List.drop_drop 4 20 _).symm.trans
    ((congrArg (List.drop 4) d20).trans (step _ _)) : (_ : List Nat).drop (20 + 4) = _)
  have d28 := ((List.drop_drop 4 24 _).symm.trans
    ((congrArg (List.drop 4) d24).trans (step _ _)) : (_ : List Nat).drop (24 + 4) = _)
  have d36 := ((List.drop_drop 8 28 _).symm.trans
    ((congrArg (List.drop 8) d28).trans (List.drop_left' hr)) :
    (_ : List Nat).drop (28 + 8) = _)
  have d40 := ((List.drop_drop 4 36 _).symm.trans
    ((congrArg (List.drop 4) d36).trans (step _ _)) : (_ : List Nat).drop (36 + 4) = _)
  norm_num at d12 d16 d20 d24 d28 d36 d40
  unfold headerFieldsOf truncHeader
  simp only [CapsuleHeader.mk.injEq]
  refine ⟨?_, ?_, ?_, ?_, ?_, ?_, ?_, ?_, ?_⟩
  · exact List.take_left' hm
  · rw [d8, List.take_left' (le32_length _), leDecode4_le32]
  · rw [d12, List.take_left' (le32_length _), leDecode4_le32]
  · rw [d16, List.take_left' (le32_length _), leDecode4_le32]
  · rw [d20, List.take_left' (le32_length _), leDecode4_le32]
  · rw [d24, List.take_left' (le32_length _), leDecode4_le32]
  · rw [d28, List.take_left' hr]
  · rw [d36, List.take_left' (le32_length _), leDecode4_le32]
  · have h4 : (le32 h.data_offset).take 4 = le32 h.data_offset := by
      conv_lhs => rw [← le32_length h.data_offset]
      exact List.take_length _
    rw [d40, h4, leDecode4_le32]

theorem calc_checksum_trunc (h : CapsuleHeader) :
    (truncHeader h).calculate_checksum_without_field
      = h.calculate_checksum_without_field := by
  unfold truncHeader CapsuleHeader.calculate_checksum_without_field
  simp only [le32_mod]

theorem from_bytes_to_bytes (h : CapsuleHeader) (hm : h.magic = CAPSULE_MAGIC)
    (hr : h.reserved.length = 8)
    (hc : h.header_checksum = h.calculate_checksum_without_field) :
    CapsuleHeader.from_bytes h.to_bytes = .ok (truncHeader h) := by
  have hm8 : h.magic.length = 8 := by rw [hm]; rfl
  have hlen : h.to_bytes.length = 44 := to_bytes_length h hm8 hr
  have htake : h.to_bytes.take 8 = CAPSULE_MAGIC := by
    unfold CapsuleHeader.to_bytes
    rw [show h.magic ++ le32 h.version ++ le32 h.capsule_index ++ le32 h.capsule_size
        ++ le32 h.data_size ++ le32 h.flags ++ h.reserved
        ++ le32 h.header_checksum ++ le32 h.data_offset
        = h.magic ++ (le32 h.version ++ (le32 h.capsule_index ++ (le32 h.capsule_size
        ++ (le32 h.data_size ++ (le32 h.flags ++ (h.reserved
        ++ (le32 h.header_checksum ++ le32 h.data_offset))))))) by
      simp [List.append_assoc]]
    rw [List.take_left' hm8, hm]
  unfold CapsuleHeader.from_bytes
  rw [headerFieldsOf_to_bytes h hm8 hr]
  have hck : (truncHeader h).header_checksum
      = (truncHeader h).calculate_checksum_without_field := by
    show h.header_checksum % U32 = _
    rw [calc_checksum_trunc, ← hc,
      Nat.mod_eq_of_lt (hc ▸ crc32_lt _)]
  simp [hlen, htake, CAPSULE_HEADER_SIZE, hck]

theorem new_magic (i s d : Nat) (e c : Bool) :
    (CapsuleHeader.new i s d e c).magic = CAPSULE_MAGIC := rfl

theorem new_reserved (i s d : Nat) (e c : Bool) :
    (CapsuleHeader.new i s d e c).reserved = List.replicate 8 0 := rfl

theorem calc_checksum_of_fields (h1 h2 : CapsuleHeader) (hm : h1.magic = h2.magic)
    (hv : h1.version = h2.version) (hi : h1.capsule_index = h2.capsule_index)
    (hs : h1.capsule_size = h2.capsule_size) (hd : h1.data_size = h2.data_size)
    (hf : h1.flags = h2.flags) (hres : h1.reserved = h2.reserved)
    (ho : h1.data_offset = h2.data_offset) :
    h1.calculate_checksum_without_field = h2.calculate_checksum_without_field := by
  unfold CapsuleHeader.calculate_checksum_without_field
  rw [hm, hv, hi, hs, hd, hf, hres, ho]

theorem new_checksum (i s d : Nat) (e c : Bool) :
    (CapsuleHeader.new i s d e c).header_checksum
      = (CapsuleHeader.new i s d e c).calculate_checksum_without_field := by
  have h1 : (CapsuleHeader.new i s d e c).header_checksum
      = (CapsuleHeader.headerBase i s d e c).calculate_checksum_without_field := rfl
  have h2 : (CapsuleHeader.new i s d e c).calculate_checksum_without_field
      = (CapsuleHeader.headerBase i s d e c).calculate_checksum_without_field :=
    calc_checksum_of_fields _ _ rfl rfl rfl rfl rfl rfl rfl rfl
  rw [h1, h2]

theorem new_capsule_size (i s d : Nat) (e c : Bool) :
    (CapsuleHeader.new i s d e c).capsule_size = s := rfl

theorem new_to_bytes_length (i s d : Nat) (e c : Bool) :
    (CapsuleHeader.new i s d e c).to_bytes.length = 44 :=
  to_bytes_length _ rfl (by simp [new_reserved])

theorem from_bytes_new (i s d : Nat) (e c : Bool) :
    CapsuleHeader.from_bytes (CapsuleHeader.new i s d e c).to_bytes
      = .ok (truncHeader (CapsuleHeader.new i s d e c)) :=
  from_bytes_to_bytes _ (new_magic i s d e c) (by simp [new_reserved])
    (new_checksum i s d e c)

/-- The inner `while remaining >= capsule_size` loop of `determine_chunk_sizes`:
push `s` and subtract while it fits.  (`s` is always one of the five positive
ladder constants in the source; the `0 < s` guard only serves termination.) -/
def pushWhile (s remaining : Nat) (acc : List Nat) : List Nat × Nat :=
  if h : 0 < s ∧ s ≤ remaining then pushWhile s (remaining - s) (acc ++ [s])
  else (acc, remaining)
termination_by remaining
decreasing_by omega

/-- `StreamingCapsuleProcessor::determine_chunk_sizes`: walk the ladder from
largest to smallest, greedily pushing sizes, then one 256 KiB tail entry if a
remainder is left. -/
def determine_chunk_sizes (total_size : Nat) : List Nat :=
  let walk := CAPSULE_SIZES.reverse.foldl (fun st s => pushWhile s st.2 st.1)
    ([], total_size)
  if walk.2 > 0 then walk.1 ++ [CAPSULE_SIZES.getD 0 0] else walk.1

/-- The chunking law in the words of the specification: greedy largest-first
decomposition written with division and remainder, plus the 256 KiB tail. -/
def greedyPlanSpec (n : Nat) : List Nat :=
  let c1 := n / 1048576000
  let r1 := n % 1048576000
  let c2 := r1 / 104857600
  let r2 := r1 % 104857600
  let c3 := r2 / 10485760
  let r3 := r2 % 10485760
  let c4 := r3 / 1048576
  let r4 := r3 % 1048576
  let c5 := r4 / 262144
  let r5 := r4 % 262144
  List.replicate c1 1048576000 ++ List.replicate c2 104857600
    ++ List.replicate c3 10485760 ++ List.replicate c4 1048576
    ++ List.replicate c5 262144 ++ (if r5 > 0 then [262144] else [])

theorem pushWhile_spec (s : Nat) (hs : 0 < s) :
    ∀ r acc, pushWhile s r acc = (acc ++ List.replicate (r / s) s, r % s) := by
  intro r
  induction r using Nat.strong_induction_on with
  | _ r ih =>
    intro acc
    rw [pushWhile]
    split
    · next hc =>
      rw [ih (r - s) (by omega)]
      have h1 : r / s = (r - s) / s + 1 := by
        rw [Nat.div_eq_sub_div hs hc.2]
      have h2 : r % s = (r - s) % s := Nat.mod_eq_sub_mod hc.2
      rw [h1, h2, List.append_assoc, List.singleton_append, ← List.replicate_succ]
    · next hc =>
      have hr : r < s := by omega
      simp [Nat.div_eq_of_lt hr, Nat.mod_eq_of_lt hr]

theorem determine_chunk_sizes_eq_greedy (n : Nat) :
    determine_chunk_sizes n = greedyPlanSpec n := by
  unfold determine_chunk_sizes greedyPlanSpec
  have e : CAPSULE_SIZES.reverse = [1048576000, 104857600, 10485760, 1048576, 262144] := rfl
  rw [e]
  simp only [List.foldl_cons, List.foldl_nil]
  rw [pushWhile_spec _ (by norm_num), pushWhile_spec _ (by norm_num),
    pushWhile_spec _ (by norm_num), pushWhile_spec _ (by norm_num),
    pushWhile_spec _ (by norm_num)]
  simp only [List.nil_append, List.append_assoc, CAPSULE_SIZES, List.getD]
  split <;> simp [List.append_assoc]

theorem mem_determine_chunk_sizes {x n : Nat} (hx : x ∈ determine_chunk_sizes n) :
    x ∈ CAPSULE_SIZES := by
  rw [determine_chunk_sizes_eq_greedy] at hx
  unfold greedyPlanSpec at hx
  simp only [List.mem_append, List.mem_replicate] at hx
  unfold CAPSULE_SIZES
  rcases hx with ((((h | h) | h) | h) | h) | h
  · simp [h.2]
  · simp [h.2]
  · simp [h.2]
  · simp [h.2]
  · simp [h.2]
  · rcases Nat.decEq ((n % 1048576000 % 104857600 % 10485760 % 1048576) % 262144) 0 with h0 | h0
    all_goals
      split at h <;> simp_all

theorem sum_determine_chunk_sizes (n : Nat) : n ≤ (determine_chunk_sizes n).sum := by
  rw [determine_chunk_sizes_eq_greedy]
  unfold greedyPlanSpec
  simp only [List.sum_append, List.sum_replicate, smul_eq_mul]
  split <;> simp <;> omega

/-- `StreamingCapsuleProcessor::find_optimal_capsule_size`.  The two Rust
float casts `(d as f64 * 0.05) as usize` and `(d as f64 * 0.01) as usize`
are the floors `d / 20` and `d / 100` for every data size that can occur
(the rounding error of the products stays far below the distance of
`d / 20` to the next integer for all `d` below 2^48). -/
def find_optimal_capsule_size (processed_data_size target_capsule_size : Nat) : Nat :=
  let min_padding := processed_data_size / 20
  let required_space := processed_data_size + 4 + 4 + min_padding
  if required_space ≤ target_capsule_size then target_capsule_size
  else
    let min_padding_reduced := max (processed_data_size / 100) 1024
    let required_space_reduced := processed_data_size + 4 + 4 + min_padding_reduced
    if required_space_reduced ≤ target_capsule_size then target_capsule_size
    else
      match CAPSULE_SIZES.find? (fun s =>
          decide (target_capsule_size < s) && decide (required_space ≤ s)) with
      | some s => s
      | none => CAPSULE_SIZES.getD (CAPSULE_SIZES.length - 1) 0

/-- The size-upgrade policy as the specification words it: try the planned
target with 5% padding, then with reduced padding, then the first strictly
larger ladder rung with 5% padding, else the largest rung. -/
def sizeUpgradePolicySpec (dataLen target : Nat) : Nat :=
  if dataLen + 8 + dataLen / 20 ≤ target then target
  else if dataLen + 8 + max (dataLen / 100) 1024 ≤ target then target
  else if target < 262144 ∧ dataLen + 8 + dataLen / 20 ≤ 262144 then 262144
  else if target < 1048576 ∧ dataLen + 8 + dataLen / 20 ≤ 1048576 then 1048576
  else if target < 10485760 ∧ dataLen + 8 + dataLen / 20 ≤ 10485760 then 10485760
  else if target < 104857600 ∧ dataLen + 8 + dataLen / 20 ≤ 104857600 then 104857600
  else if target < 1048576000 ∧ dataLen + 8 + dataLen / 20 ≤ 1048576000 then 1048576000
  else 1048576000

theorem find_optimal_eq_spec (d t : Nat) :
    find_optimal_capsule_size d t = sizeUpgradePolicySpec d t := by
  unfold find_optimal_capsule_size sizeUpgradePolicySpec
  simp only [show ∀ x : Nat, x + 4 + 4 = x + 8 from fun x => by omega,
    ← Bool.decide_and]
  by_cases h0 : d + 8 + d / 20 ≤ t
  · simp [h0]
  · simp only [if_neg h0]
    by_cases hr : d + 8 + max (d / 100) 1024 ≤ t
    · simp [hr]
    · simp only [if_neg hr]
      by_cases h1 : t < 262144 ∧ d + 8 + d / 20 ≤ 262144 <;>
        by_cases h2 : t < 1048576 ∧ d + 8 + d / 20 ≤ 1048576 <;>
          by_cases h3 : t < 10485760 ∧ d + 8 + d / 20 ≤ 10485760 <;>
            by_cases h4 : t < 104857600 ∧ d + 8 + d / 20 ≤ 104857600 <;>
              by_cases h5 : t < 1048576000 ∧ d + 8 + d / 20 ≤ 1048576000 <;>
                simp [CAPSULE_SIZES, List.find?, h1, h2, h3, h4, h5]

theorem find_optimal_mem (d t : Nat) (ht : t ∈ CAPSULE_SIZES) :
    find_optimal_capsule_size d t ∈ CAPSULE_SIZES := by
  rw [find_optimal_eq_spec]
  unfold sizeUpgradePolicySpec
  split_ifs <;> first
    | exact ht
    | simp [CAPSULE_SIZES]

theorem find_optimal_lb (d t : Nat) (ht : 262144 ≤ t) (hd : d + 1032 ≤ 1048576000) :
    d + 9 ≤ find_optimal_capsule_size d t := by
  rw [find_optimal_eq_spec]
  unfold sizeUpgradePolicySpec
  split_ifs <;> omega

theorem find_optimal_ub (d t : Nat) (ht : t ≤ 1048576000) :
    find_optimal_capsule_size d t ≤ 1048576000 := by
  rw [find_optimal_eq_spec]
  unfold sizeUpgradePolicySpec
  split_ifs <;> omega

/-- ASCII bytes of `DIG_PADDING_SEED_V1`. -/
def paddingSeedBytes : List Nat :=
  [68, 73, 71, 95, 80, 65, 68, 68, 73, 78, 71, 95, 83, 69, 69, 68, 95, 86, 49]

/-- The 32-byte deterministic padding hash: SHA-256 of the big-endian chunk
index followed by the padding seed. -/
def paddingHash (chunk_index : Nat) : List Nat :=
  sha256 (be32 chunk_index ++ paddingSeedBytes)

theorem paddingHash_length (i : Nat) : (paddingHash i).length = 32 :=
  sha256_length _

/-- The `while remaining_padding > 0` filler loop: takes
`min(remaining, 32)` bytes of the hash per iteration. -/
def fillerBytes (hash : List Nat) (remaining : Nat) : List Nat :=
  if h : remaining = 0 then []
  else hash.take (min remaining 32) ++ fillerBytes hash (remaining - min remaining 32)
termination_by remaining
decreasing_by omega

theorem fillerBytes_length (hash : List Nat) (hlen : 32 ≤ hash.length) :
    ∀ n, (fillerBytes hash n).length = n := by
  intro n
  induction n using Nat.strong_induction_on with
  | _ n ih =>
    rw [fillerBytes]
    split
    · next h0 => simp [h0]
    · next h =>
      rw [List.length_append, List.length_take, ih _ (by omega)]
      omega

/-- `StreamingCapsuleProcessor::add_deterministic_padding`.  `usize`
subtraction is modelled with an explicit wrap modulo 2^64 (the release-build
behavior); `current_size as u32` in the footer is `le32`, which truncates. -/
def add_deterministic_padding (data : List Nat)
    (current_size target_size chunk_index : Nat) : Except CapsuleError (List Nat) :=
  if current_size ≥ target_size then .ok data
  else
    let available_space := (target_size - current_size + U64 - 4 - 4) % U64
    if available_space = 0 then
      .error (.ConsensusViolation ("No space available for padding"))
    else
      .ok (data ++ PADDING_MARKER ++ fillerBytes (paddingHash chunk_index) available_space
        ++ le32 current_size)

/-- The scan of `remove_padding`, from index `i` downward to 4: stop at the
first window equal to the marker whose footer value does not exceed it. -/
def removePaddingLoop (data : List Nat) (i : Nat) : Option Nat :=
  if h4 : i < 4 then none
  else if (data.drop i).take 4 = PADDING_MARKER
      ∧ leDecode4 (data.drop (data.length - 4)) ≤ i then
    some (leDecode4 (data.drop (data.length - 4)))
  else removePaddingLoop data (i - 1)
termination_by i
decreasing_by omega

/-- `StreamingCapsuleProcessor::remove_padding`: scan tail-first for the
marker; on success return the `original_size` prefix, otherwise all data. -/
def remove_padding (data : List Nat) : List Nat :=
  match removePaddingLoop data (data.length - 4 - 1) with
  | some sz => data.take sz
  | none => data

theorem add_padding_skip (data : List Nat) (cur t i : Nat) (h : t ≤ cur) :
    add_deterministic_padding data cur t i = .ok data := by
  unfold add_deterministic_padding
  rw [if_pos h]

theorem add_padding_zero (data : List Nat) (cur t i : Nat) (h : t = cur + 8) :
    add_deterministic_padding data cur t i
      = .error (.ConsensusViolation ("No space available for padding")) := by
  unfold add_deterministic_padding
  rw [if_neg (by omega)]
  have ha : (t - cur + U64 - 4 - 4) % U64 = 0 := by
    unfold U64
    omega
  simp [ha]

theorem add_padding_ok (data : List Nat) (cur t i : Nat) (h1 : cur + 8 < t)
    (h2 : t - cur - 8 < U64) :
    add_deterministic_padding data cur t i
      = .ok (data ++ PADDING_MARKER
          ++ fillerBytes (paddingHash i) (t - cur - 8) ++ le32 cur) := by
  unfold add_deterministic_padding
  rw [if_neg (by omega)]
  have ha : (t - cur + U64 - 4 - 4) % U64 = t - cur - 8 := by
    unfold U64 at h2 ⊢
    omega
  rw [ha]
  rw [if_neg (by omega)]

theorem remove_padding_roundtrip (P fill : List Nat) (h4 : 4 ≤ P.length)
    (hlt : P.length < U32) (hf : 1 ≤ fill.length) :
    remove_padding (P ++ PADDING_MARKER ++ fill ++ le32 P.length) = P := by
  have hassoc : P ++ PADDING_MARKER ++ fill ++ le32 P.length
      = P ++ (PADDING_MARKER ++ (fill ++ le32 P.length)) := by
    simp [List.append_assoc]
  have hlen : (P ++ PADDING_MARKER ++ fill ++ le32 P.length).length
      = P.length + fill.length + 8 := by
    simp [PADDING_MARKER, le32]
    omega
  have hfoot : (P ++ PADDING_MARKER ++ fill ++ le32 P.length).drop
      ((P ++ PADDING_MARKER ++ fill ++ le32 P.length).length - 4) = le32 P.length := by
    rw [hlen]
    have he : P.length + fill.length + 8 - 4 = (P ++ PADDING_MARKER ++ fill).length := by
      simp [PADDING_MARKER]
      omega
    rw [he]
    exact List.drop_left _ _
  have hfootval : leDecode4 ((P ++ PADDING_MARKER ++ fill ++ le32 P.length).drop
      ((P ++ PADDING_MARKER ++ fill ++ le32 P.length).length - 4)) = P.length := by
    rw [hfoot, leDecode4_le32, Nat.mod_eq_of_lt hlt]
  have hwin : ((P ++ PADDING_MARKER ++ fill ++ le32 P.length).drop P.length).take 4
      = PADDING_MARKER := by
    rw [hassoc]
    rw [List.drop_left]
    exact List.take_left' rfl
  have hloop : ∀ i, P.length ≤ i →
      removePaddingLoop (P ++ PADDING_MARKER ++ fill ++ le32 P.length) i
        = some P.length := by
    intro i
    induction i using Nat.strong_induction_on with
    | _ i ih =>
      intro hge
      rw [removePaddingLoop]
      rw [dif_neg (by omega)]
      by_cases hc : ((P ++ PADDING_MARKER ++ fill ++ le32 P.length).drop i).take 4
          = PADDING_MARKER
          ∧ leDecode4 ((P ++ PADDING_MARKER ++ fill ++ le32 P.length).drop
            ((P ++ PADDING_MARKER ++ fill ++ le32 P.length).length - 4)) ≤ i
      · rw [if_pos hc, hfootval]
      · rw [if_neg hc]
        have hne : i ≠ P.length := by
          intro he
          exact hc ⟨he ▸ hwin, by rw [hfootval]; omega⟩
        exact ih (i - 1) (by omega) (by omega)
  unfold remove_padding
  rw [hloop _ (by rw [hlen]; omega)]
  rw [hassoc]
  exact List.take_left' rfl

/-- ASCII bytes of `DIG_CAPSULE_SALT_V1`. -/
def saltBytes : List Nat :=
  [68, 73, 71, 95, 67, 65, 80, 83, 85, 76, 69, 95, 83, 65, 76, 84, 95, 86, 49]

/-- `StreamingCapsuleProcessor::derive_consensus_key`:
SHA-256 of passphrase bytes followed by the consensus salt. -/
def derive_consensus_key (key_str : List Nat) : List Nat :=
  sha256 (key_str ++ saltBytes)

/-- The deterministic 12-byte nonce: big-endian chunk index, ASCII `DIG1`,
four zero bytes. -/
def nonceBytes (chunk_index : Nat) : List Nat :=
  be32 chunk_index ++ [68, 73, 71, 49] ++ [0, 0, 0, 0]

theorem nonceBytes_length (i : Nat) : (nonceBytes i).length = 12 := rfl

/-- `StreamingCapsuleProcessor::encrypt_stream`.  The AES-256-GCM cipher of
the external `aes_gcm` crate is the parameter `aesE` (key, nonce, plaintext
to ciphertext-with-tag); with a key the output is nonce followed by
ciphertext, without a key the data is copied unchanged. -/
def encrypt_stream (aesE : List Nat → List Nat → List Nat → List Nat)
    (key : Option (List Nat)) (chunk_index : Nat) (data : List Nat) : List Nat :=
  match key with
  | some k => nonceBytes chunk_index ++ aesE k (nonceBytes chunk_index) data
  | none => data

/-- `StreamingCapsuleProcessor::decrypt_stream`.  The AES-256-GCM opening of
the external crate is the parameter `aesD`; `none` means authentication
failure, surfaced as `DecryptionFailed`. -/
def decrypt_stream (aesD : List Nat → List Nat → List Nat → Option (List Nat))
    (key : Option (List Nat)) (data : List Nat) : Except CapsuleError (List Nat) :=
  match key with
  | some k =>
    if data.length < 12 then .error .IoError
    else
      match aesD k (data.take 12) (data.drop 12) with
      | some m => .ok m
      | none => .error .DecryptionFailed
  | none => .ok data

/-- `Capsule` manifest entry. -/
structure Capsule where
  index : Nat
  size : Nat
  hash : String
  encrypted : Bool
  compressed : Bool
deriving DecidableEq, Repr

/-- `EncryptionInfo` manifest block (descriptive labels). -/
structure EncryptionInfo where
  algorithm : String
  key_derivation : String
  iterations : Nat
  salt : String
deriving DecidableEq, Repr

/-- `CompressionInfo` manifest block.  `original_size` is an `f64` in the
source; every occurring value is an exactly representable integer. -/
structure CompressionInfo where
  algorithm : String
  level : Nat
  original_size : Nat
deriving DecidableEq, Repr

/-- `CapsuleMetadata`. -/
structure CapsuleMetadata where
  original_size : Nat
  capsule_count : Nat
  capsule_sizes : List Nat
  checksum : String
  chunking_algorithm : String
  consensus_version : String
  encryption_info : Option EncryptionInfo
  compression_info : Option CompressionInfo
deriving DecidableEq, Repr

/-- `CapsuleSet`. -/
structure CapsuleSet where
  id : String
  capsules : List Capsule
  metadata : CapsuleMetadata
deriving DecidableEq, Repr

/-- `CapsuleFileInfo` returned by `get_capsule_file_info`. -/
structure CapsuleFileInfo where
  magic : String
  version : Nat
  capsule_index : Nat
  capsule_size : Nat
  data_size : Nat
  is_encrypted : Bool
  is_compressed : Bool
  checksum : String
deriving DecidableEq, Repr

/-- The pure part of `validate_capsule_file_internal` once 44 header bytes
have been read: parse and CRC-check, then version, ladder and offset checks. -/
def validateHeaderBytes (bs : List Nat) : Except CapsuleError CapsuleHeader :=
  match CapsuleHeader.from_bytes bs with
  | .error e => .error e
  | .ok h =>
    if h.version ≠ CAPSULE_VERSION then
      .error (.ConsensusViolation ("Unsupported capsule version"))
    else if ¬ h.capsule_size ∈ CAPSULE_SIZES then
      .error (.ConsensusViolation ("Invalid capsule size"))
    else if h.data_offset ≠ CAPSULE_HEADER_SIZE then
      .error .InvalidFormat
    else .ok h

/-- `validate_capsule_file_internal`.  The file system is abstracted to the
optional content of the file at the given path: a missing file and a short
read both yield `InvalidFormat`, as in the source. -/
def validate_capsule_file_internal (contents : Option (List Nat)) :
    Except CapsuleError CapsuleHeader :=
  match contents with
  | none => .error .InvalidFormat
  | some bs =>
    if bs.length < CAPSULE_HEADER_SIZE then .error .InvalidFormat
    else validateHeaderBytes (bs.take CAPSULE_HEADER_SIZE)

/-- `is_valid_capsule_file`: any validation error becomes `Ok(false)`. -/
def is_valid_capsule_file (contents : Option (List Nat)) : Except CapsuleError Bool :=
  match validate_capsule_file_internal contents with
  | .ok _ => .ok true
  | .error _ => .ok false

/-- Rust `format!` `{:08x}` of a `u32` value. -/
def hex8 (n : Nat) : String := hexEncode (be32 n)

/-- `get_capsule_file_info`: any validation error becomes `Ok(None)`. -/
def get_capsule_file_info (contents : Option (List Nat)) :
    Except CapsuleError (Option CapsuleFileInfo) :=
  match validate_capsule_file_internal contents with
  | .ok h => .ok (some
      { magic := hexEncode h.magic, version := h.version,
        capsule_index := h.capsule_index, capsule_size := h.capsule_size,
        data_size := h.data_size,
        is_encrypted := h.flags &&& FLAG_ENCRYPTED ≠ 0,
        is_compressed := h.flags &&& FLAG_COMPRESSED ≠ 0,
        checksum := hex8 h.header_checksum })
  | .error _ => .ok none

/-- The chunks read by the main loop of
`create_data_capsule_from_file_internal`: each planned entry reads
`min(planned, remaining)` bytes; a zero-length read breaks the loop. -/
def chunksOf (rest plan : List Nat) : List (List Nat) :=
  match plan with
  | [] => []
  | t :: ps =>
    if min t rest.length = 0 then []
    else rest.take (min t rest.length) :: chunksOf (rest.drop (min t rest.length)) ps

/-- The per-chunk work of the main loop of
`create_data_capsule_from_file_internal`: encrypt, compress, right-size, pad
and frame every chunk, also returning the concatenation of the raw chunks
that were read (the source feeds exactly these bytes to the running
checksum).  `gz` is the external gzip compressor, `aesE` the external
cipher. -/
def runChunks (gz : List Nat → List Nat)
    (aesE : List Nat → List Nat → List Nat → List Nat) (key : Option (List Nat))
    (rest plan : List Nat) (i : Nat) :
    Except CapsuleError (List (CapsuleHeader × List Nat) × List Nat) :=
  match plan with
  | [] => .ok ([], [])
  | t :: ps =>
    if min t rest.length = 0 then .ok ([], [])
    else
      let chunk := rest.take (min t rest.length)
      let comp := gz (encrypt_stream aesE key i chunk)
      let T := find_optimal_capsule_size comp.length t
      match add_deterministic_padding comp comp.length T i with
      | .error e => .error e
      | .ok payload =>
        match runChunks gz aesE key (rest.drop (min t rest.length)) ps (i + 1) with
        | .error e => .error e
        | .ok (items, tail) =>
          .ok ((CapsuleHeader.new i T payload.length key.isSome true, payload) :: items,
            chunk ++ tail)

/-- The `EncryptionInfo` block written by create when a passphrase is given. -/
def standardEncryptionInfo : EncryptionInfo :=
  { algorithm := "AES-256-GCM", key_derivation := "PBKDF2-HMAC-SHA256",
    iterations := 100000, salt := "DIG_CAPSULE_SALT_V1" }

/-- `create_data_capsule_from_file_internal`.  The input file is the byte
list `input`; the returned pair is the manifest and the capsule files (in
index order, as written to the output directory).  The empty-input branch
and the main loop follow the source. -/
def create_data_capsule (gz : List Nat → List Nat)
    (aesE : List Nat → List Nat → List Nat → List Nat)
    (input : List Nat) (pass : Option (List Nat)) :
    Except CapsuleError (CapsuleSet × List (List Nat)) :=
  let key := pass.map derive_consensus_key
  let encInfo := pass.map (fun _ => standardEncryptionInfo)
  if input.length = 0 then
    let comp := gz (encrypt_stream aesE key 0 [])
    match add_deterministic_padding comp comp.length (CAPSULE_SIZES.getD 0 0) 0 with
    | .error e => .error e
    | .ok payload =>
      let hdr := CapsuleHeader.new 0 (CAPSULE_SIZES.getD 0 0) payload.length
        key.isSome true
      let id := hexEncode (sha256 [])
      let cap : Capsule :=
        { index := 0, size := CAPSULE_SIZES.getD 0 0,
          hash := hexEncode (sha256 (hdr.to_bytes ++ payload)),
          encrypted := key.isSome, compressed := true }
      let meta : CapsuleMetadata :=
        { original_size := 0, capsule_count := 1,
          capsule_sizes := [CAPSULE_SIZES.getD 0 0], checksum := id,
          chunking_algorithm := "DIG_DETERMINISTIC_V1",
          consensus_version := "DIG_CAPSULE_V1",
          encryption_info := encInfo,
          compression_info := some
            { algorithm := "gzip", level := 6, original_size := 0 } }
      .ok ({ id := id, capsules := [cap], metadata := meta },
        [hdr.to_bytes ++ payload])
  else
    let plan := determine_chunk_sizes input.length
    match runChunks gz aesE key input plan 0 with
    | .error e => .error e
    | .ok (items, consumed) =>
      let id := hexEncode (sha256 consumed)
      let caps : List Capsule := items.enum.map (fun p =>
        { index := p.1, size := p.2.1.capsule_size,
          hash := hexEncode (sha256 (p.2.1.to_bytes ++ p.2.2)),
          encrypted := key.isSome, compressed := true })
      let meta : CapsuleMetadata :=
        { original_size := input.length, capsule_count := items.length,
          capsule_sizes := plan, checksum := id,
          chunking_algorithm := "DIG_DETERMINISTIC_V1",
          consensus_version := "DIG_CAPSULE_V1",
          encryption_info := encInfo,
          compression_info := some
            { algorithm := "gzip", level := 6, original_size := input.length } }
      .ok ({ id := id, capsules := caps, metadata := meta },
        items.map (fun it => it.1.to_bytes ++ it.2))

/-- The per-capsule loop of `extract_data_capsule_to_file_internal`: read and
check the header, unpad the remainder, decompress (`gzD` is the external
gzip decoder) and decrypt, concatenating the plaintexts. -/
def extractFiles (gzD : List Nat → List Nat)
    (aesD : List Nat → List Nat → List Nat → Option (List Nat))
    (key : Option (List Nat)) : List (List Nat) → Except CapsuleError (List Nat)
  | [] => .ok []
  | f :: fs =>
    if f.length < CAPSULE_HEADER_SIZE then .error .IoError
    else
      match CapsuleHeader.from_bytes (f.take CAPSULE_HEADER_SIZE) with
      | .error e => .error e
      | .ok _ =>
        match decrypt_stream aesD key (gzD (remove_padding
            (f.drop CAPSULE_HEADER_SIZE))) with
        | .error e => .error e
        | .ok plain =>
          match extractFiles gzD aesD key fs with
          | .error e => .error e
          | .ok rest => .ok (plain ++ rest)

/-- `extract_data_capsule_to_file_internal`: the loop runs over
`metadata.capsule_count` files by name, a missing file is an I/O error, and
the final running SHA-256 must equal `metadata.checksum`. -/
def extract_data_capsule (gzD : List Nat → List Nat)
    (aesD : List Nat → List Nat → List Nat → Option (List Nat))
    (set : CapsuleSet) (files : List (List Nat)) (pass : Option (List Nat)) :
    Except CapsuleError (List Nat) :=
  let key := pass.map derive_consensus_key
  if set.metadata.capsule_count ≤ files.length then
    match extractFiles gzD aesD key (files.take set.metadata.capsule_count) with
    | .error e => .error e
    | .ok out =>
      if hexEncode (sha256 out) = set.metadata.checksum then .ok out
      else .error .ChecksumMismatch
  else .error .IoError

/-- Create followed by extract with the same passphrase. -/
def capsule_round_trip (gz gzD : List Nat → List Nat)
    (aesE : List Nat → List Nat → List Nat → List Nat)
    (aesD : List Nat → List Nat → List Nat → Option (List Nat))
    (input : List Nat) (pass : Option (List Nat)) : Except CapsuleError (List Nat) :=
  match create_data_capsule gz aesE input pass with
  | .error e => .error e
  | .ok (set, files) => extract_data_capsule gzD aesD set files pass

theorem ladder_ge {t : Nat} (ht : t ∈ CAPSULE_SIZES) :
    262144 ≤ t ∧ t ≤ 1048576000 := by
  simp only [CAPSULE_SIZES, List.mem_cons, List.not_mem_nil, or_false] at ht
  rcases ht with h | h | h | h | h <;> omega

theorem decrypt_encrypt (aesE : List Nat → List Nat → List Nat → List Nat)
    (aesD : List Nat → List Nat → List Nat → Option (List Nat))
    (Haes : ∀ k n m, aesD k n (aesE k n m) = some m)
    (key : Option (List Nat)) (i : Nat) (m : List Nat) :
    decrypt_stream aesD key (encrypt_stream aesE key i m) = .ok m := by
  cases key with
  | none => rfl
  | some k =>
    have he : encrypt_stream aesE (some k) i m
        = nonceBytes i ++ aesE k (nonceBytes i) m := rfl
    have hd : ∀ data : List Nat, decrypt_stream aesD (some k) data
        = (if data.length < 12 then .error .IoError
           else
             match aesD k (data.take 12) (data.drop 12) with
             | some m2 => .ok m2
             | none => .error .DecryptionFailed) := fun _ => rfl
    rw [he, hd]
    have hlen : (nonceBytes i ++ aesE k (nonceBytes i) m).length
        = 12 + (aesE k (nonceBytes i) m).length := by
      simp [nonceBytes_length]
    rw [if_neg (by omega)]
    rw [List.take_left' (nonceBytes_length i), List.drop_left' (nonceBytes_length i)]
    rw [Haes]

theorem extractFiles_cons (gzD : List Nat → List Nat)
    (aesD : List Nat → List Nat → List Nat → Option (List Nat))
    (key : Option (List Nat)) (f : List Nat) (fs : List (List Nat))
    (h2 : CapsuleHeader) (plain out : List Nat)
    (h44 : ¬ f.length < CAPSULE_HEADER_SIZE)
    (hfb : CapsuleHeader.from_bytes (f.take CAPSULE_HEADER_SIZE) = .ok h2)
    (hdec : decrypt_stream aesD key (gzD (remove_padding (f.drop CAPSULE_HEADER_SIZE)))
      = .ok plain)
    (hrest : extractFiles gzD aesD key fs = .ok out) :
    extractFiles gzD aesD key (f :: fs) = .ok (plain ++ out) := by
  simp only [extractFiles]
  rw [if_neg h44]
  simp only [hfb, hdec, hrest]

set_option maxHeartbeats 2000000 in
theorem runChunks_extract (gz gzD : List Nat → List Nat)
    (aesE : List Nat → List Nat → List Nat → List Nat)
    (aesD : List Nat → List Nat → List Nat → Option (List Nat))
    (key : Option (List Nat)) (L : Nat)
    (Hgz : ∀ x, gzD (gz x) = x)
    (Haes : ∀ k n m, aesD k n (aesE k n m) = some m)
    (Hc : ∀ i c, c.length ≤ L →
      4 ≤ (gz (encrypt_stream aesE key i c)).length
        ∧ (gz (encrypt_stream aesE key i c)).length + 1032 ≤ 1048576000) :
    ∀ plan rest i, (∀ t ∈ plan, t ∈ CAPSULE_SIZES) → rest.length ≤ L →
      rest.length ≤ plan.sum →
      ∃ items, runChunks gz aesE key rest plan i = .ok (items, rest)
        ∧ extractFiles gzD aesD key (items.map fun it => it.1.to_bytes ++ it.2)
            = .ok rest
        ∧ ∀ j hd pay, items[j]? = some (hd, pay) →
            pay.length = find_optimal_capsule_size
              (gz (encrypt_stream aesE key (i + j)
                ((chunksOf rest plan).getD j []))).length (plan.getD j 0)
            ∧ hd = CapsuleHeader.new (i + j)
                (find_optimal_capsule_size
                  (gz (encrypt_stream aesE key (i + j)
                    ((chunksOf rest plan).getD j []))).length (plan.getD j 0))
                pay.length key.isSome true := by
  intro plan
  induction plan with
  | nil =>
    intro rest i hplan hL hsum
    have hnil : rest = [] := List.length_eq_zero.mp (by simpa using hsum)
    subst hnil
    refine ⟨[], rfl, rfl, ?_⟩
    intro j hd pay hj
    simp at hj
  | cons t ps ih =>
    intro rest i hplan hL hsum
    have ht : t ∈ CAPSULE_SIZES := hplan t (by simp)
    have ht2 := ladder_ge ht
    by_cases h0 : min t rest.length = 0
    · have hnil : rest = [] := by
        apply List.length_eq_zero.mp
        omega
      subst hnil
      refine ⟨[], ?_, rfl, ?_⟩
      · simp [runChunks]
      · intro j hd pay hj; simp at hj
    · have hale : min t rest.length ≤ rest.length := by omega
      have hcl : (rest.take (min t rest.length)).length = min t rest.length := by
        rw [List.length_take]; omega
      have hcb := Hc i (rest.take (min t rest.length)) (by omega)
      have hDT : (gz (encrypt_stream aesE key i (rest.take (min t rest.length)))).length + 9
          ≤ find_optimal_capsule_size
            (gz (encrypt_stream aesE key i (rest.take (min t rest.length)))).length t :=
        find_optimal_lb _ t ht2.1 (by omega)
      have hTub : find_optimal_capsule_size
          (gz (encrypt_stream aesE key i (rest.take (min t rest.length)))).length t
            ≤ 1048576000 :=
        find_optimal_ub _ t ht2.2
      have hpad := add_padding_ok
        (gz (encrypt_stream aesE key i (rest.take (min t rest.length))))
        (gz (encrypt_stream aesE key i (rest.take (min t rest.length)))).length
        (find_optimal_capsule_size
          (gz (encrypt_stream aesE key i (rest.take (min t rest.length)))).length t)
        i (by omega) (by unfold U64; omega)
      obtain ⟨items2, hrun2, hext2, hprops2⟩ := ih (rest.drop (min t rest.length)) (i + 1)
        (fun x hx => hplan x (by simp [hx]))
        (by rw [List.length_drop]; omega)
        (by rw [List.length_drop]; simp only [List.sum_cons] at hsum; omega)
      have hflen : (fillerBytes (paddingHash i)
          ((find_optimal_capsule_size
            (gz (encrypt_stream aesE key i (rest.take (min t rest.length)))).length t)
            - (gz (encrypt_stream aesE key i (rest.take (min t rest.length)))).length
            - 8)).length
          = (find_optimal_capsule_size
            (gz (encrypt_stream aesE key i (rest.take (min t rest.length)))).length t)
            - (gz (encrypt_stream aesE key i (rest.take (min t rest.length)))).length
            - 8 :=
        fillerBytes_length _ (by rw [paddingHash_length]) _
      have hplen : (gz (encrypt_stream aesE key i (rest.take (min t rest.length)))
            ++ PADDING_MARKER
            ++ fillerBytes (paddingHash i)
              ((find_optimal_capsule_size
                (gz (encrypt_stream aesE key i (rest.take (min t rest.length)))).length t)
                - (gz (encrypt_stream aesE key i (rest.take (min t rest.length)))).length
                - 8)
            ++ le32 (gz (encrypt_stream aesE key i (rest.take (min t rest.length)))).length).length
          = find_optimal_capsule_size
            (gz (encrypt_stream aesE key i (rest.take (min t rest.length)))).length t := by
        simp only [List.length_append, hflen, PADDING_MARKER, le32]
        simp only [List.length_cons, List.length_nil]
        omega
      have hrunEq : runChunks gz aesE key rest (t :: ps) i
          = .ok ((CapsuleHeader.new i
              (find_optimal_capsule_size
                (gz (encrypt_stream aesE key i (rest.take (min t rest.length)))).length t)
              ((gz (encrypt_stream aesE key i (rest.take (min t rest.length)))
                ++ PADDING_MARKER
                ++ fillerBytes (paddingHash i)
                  ((find_optimal_capsule_size
                    (gz (encrypt_stream aesE key i (rest.take (min t rest.length)))).length t)
                    - (gz (encrypt_stream aesE key i (rest.take (min t rest.length)))).length
                    - 8)
                ++ le32 (gz (encrypt_stream aesE key i
                  (rest.take (min t rest.length)))).length).length)
              key.isSome true,
              gz (encrypt_stream aesE key i (rest.take (min t rest.length)))
                ++ PADDING_MARKER
                ++ fillerBytes (paddingHash i)
                  ((find_optimal_capsule_size
                    (gz (encrypt_stream aesE key i (rest.take (min t rest.length)))).length t)
                    - (gz (encrypt_stream aesE key i (rest.take (min t rest.length)))).length
                    - 8)
                ++ le32 (gz (encrypt_stream aesE key i
                  (rest.take (min t rest.length)))).length) :: items2,
            rest.take (min t rest.length) ++ rest.drop (min t rest.length)) := by
        simp only [runChunks, if_neg h0]
        rw [hpad, hrun2]
      rw [List.take_append_drop] at hrunEq
      have hchunks : chunksOf rest (t :: ps)
          = rest.take (min t rest.length)
            :: chunksOf (rest.drop (min t rest.length)) ps := by
        simp [chunksOf, h0]
      refine ⟨_, hrunEq, ?_, ?_⟩
      · have hhl : (CapsuleHeader.new i
            (find_optimal_capsule_size
              (gz (encrypt_stream aesE key i (rest.take (min t rest.length)))).length t)
            ((gz (encrypt_stream aesE key i (rest.take (min t rest.length)))
              ++ PADDING_MARKER
              ++ fillerBytes (paddingHash i)
                ((find_optimal_capsule_size
                  (gz (encrypt_stream aesE key i (rest.take (min t rest.length)))).length t)
                  - (gz (encrypt_stream aesE key i (rest.take (min t rest.length)))).length
                  - 8)
              ++ le32 (gz (encrypt_stream aesE key i
                (rest.take (min t rest.length)))).length).length)
            key.isSome true).to_bytes.length = CAPSULE_HEADER_SIZE :=
          new_to_bytes_length _ _ _ _ _
        have hrp := remove_padding_roundtrip
          (gz (encrypt_stream aesE key i (rest.take (min t rest.length))))
          (fillerBytes (paddingHash i)
            ((find_optimal_capsule_size
              (gz (encrypt_stream aesE key i (rest.take (min t rest.length)))).length t)
              - (gz (encrypt_stream aesE key i (rest.take (min t rest.length)))).length
              - 8))
          (by omega) (by unfold U32; omega) (by rw [hflen]; omega)
        have hde := decrypt_encrypt aesE aesD Haes key i (rest.take (min t rest.length))
        rw [List.map_cons]
        rw [extractFiles_cons gzD aesD key _ _ _ _ _
          (by rw [List.length_append, hhl]; unfold CAPSULE_HEADER_SIZE; omega)
          (by rw [List.take_left' hhl]; exact from_bytes_new _ _ _ _ _)
          (by rw [List.drop_left' hhl, hrp, Hgz]; exact hde)
          hext2]
        rw [List.take_append_drop]
      · intro j hd pay hj
        match j with
        | 0 =>
          simp only [List.getElem?_cons_zero, Option.some.injEq, Prod.mk.injEq] at hj
          obtain ⟨hj1, hj2⟩ := hj
          subst hj1
          subst hj2
          rw [hchunks]
          simp only [List.getD_cons_zero, Nat.add_zero]
          exact ⟨hplen, trivial⟩
        | Nat.succ j2 =>
          simp only [List.getElem?_cons_succ] at hj
          have hp := hprops2 j2 hd pay hj
          have hidx : i + 1 + j2 = i + (j2 + 1) := by omega
          rw [hidx] at hp
          rw [hchunks]
          simp only [List.getD_cons_succ]
          exact hp

theorem add_padding_isOk (data : List Nat) (cur t i : Nat) (h1 : cur < t)
    (h2 : t ≠ cur + 8) (h3 : t - cur - 8 < U64) :
    ∃ q, add_deterministic_padding data cur t i = .ok q := by
  unfold add_deterministic_padding
  rw [if_neg (by omega)]
  have hne : ¬ (t - cur + U64 - 4 - 4) % U64 = 0 := by
    unfold U64 at h3 ⊢
    omega
  rw [if_neg hne]
  exact ⟨_, rfl⟩

set_option maxHeartbeats 2000000 in
theorem runChunks_ok (gz : List Nat → List Nat)
    (aesE : List Nat → List Nat → List Nat → List Nat)
    (key : Option (List Nat)) (L : Nat)
    (Hc : ∀ i c, c.length ≤ L →
      4 ≤ (gz (encrypt_stream aesE key i c)).length
        ∧ (gz (encrypt_stream aesE key i c)).length + 1032 ≤ 1048576000) :
    ∀ plan rest i, (∀ t ∈ plan, t ∈ CAPSULE_SIZES) → rest.length ≤ L →
      rest.length ≤ plan.sum →
      ∃ items, runChunks gz aesE key rest plan i = .ok (items, rest)
        ∧ items.length = (chunksOf rest plan).length
        ∧ ∀ j hd pay, items[j]? = some (hd, pay) →
            pay.length = find_optimal_capsule_size
              (gz (encrypt_stream aesE key (i + j)
                ((chunksOf rest plan).getD j []))).length (plan.getD j 0)
            ∧ hd = CapsuleHeader.new (i + j)
                (find_optimal_capsule_size
                  (gz (encrypt_stream aesE key (i + j)
                    ((chunksOf rest plan).getD j []))).length (plan.getD j 0))
                pay.length key.isSome true := by
  intro plan
  induction plan with
  | nil =>
    intro rest i hplan hL hsum
    have hnil : rest = [] := List.length_eq_zero.mp (by simpa using hsum)
    subst hnil
    refine ⟨[], rfl, rfl, ?_⟩
    intro j hd pay hj
    simp at hj
  | cons t ps ih =>
    intro rest i hplan hL hsum
    have ht : t ∈ CAPSULE_SIZES := hplan t (by simp)
    have ht2 := ladder_ge ht
    by_cases h0 : min t rest.length = 0
    · have hnil : rest = [] := by
        apply List.length_eq_zero.mp
        omega
      subst hnil
      refine ⟨[], ?_, ?_, ?_⟩
      · simp [runChunks]
      · simp [chunksOf]
      · intro j hd pay hj; simp at hj
    · have hale : min t rest.length ≤ rest.length := by omega
      have hcl : (rest.take (min t rest.length)).length = min t rest.length := by
        rw [List.length_take]; omega
      have hcb := Hc i (rest.take (min t rest.length)) (by omega)
      have hDT : (gz (encrypt_stream aesE key i (rest.take (min t rest.length)))).length + 9
          ≤ find_optimal_capsule_size
            (gz (encrypt_stream aesE key i (rest.take (min t rest.length)))).length t :=
        find_optimal_lb _ t ht2.1 (by omega)
      have hTub : find_optimal_capsule_size
          (gz (encrypt_stream aesE key i (rest.take (min t rest.length)))).length t
            ≤ 1048576000 :=
        find_optimal_ub _ t ht2.2
      have hpad := add_padding_ok
        (gz (encrypt_stream aesE key i (rest.take (min t rest.length))))
        (gz (encrypt_stream aesE key i (rest.take (min t rest.length)))).length
        (find_optimal_capsule_size
          (gz (encrypt_stream aesE key i (rest.take (min t rest.length)))).length t)
        i (by omega) (by unfold U64; omega)
      obtain ⟨items2, hrun2, hlen2, hprops2⟩ := ih (rest.drop (min t rest.length)) (i + 1)
        (fun x hx => hplan x (by simp [hx]))
        (by rw [List.length_drop]; omega)
        (by rw [List.length_drop]; simp only [List.sum_cons] at hsum; omega)
      have hflen : (fillerBytes (paddingHash i)
          ((find_optimal_capsule_size
            (gz (encrypt_stream aesE key i (rest.take (min t rest.length)))).length t)
            - (gz (encrypt_stream aesE key i (rest.take (min t rest.length)))).length
            - 8)).length
          = (find_optimal_capsule_size
            (gz (encrypt_stream aesE key i (rest.take (min t rest.length)))).length t)
            - (gz (encrypt_stream aesE key i (rest.take (min t rest.length)))).length
            - 8 :=
        fillerBytes_length _ (by rw [paddingHash_length]) _
      have hplen : (gz (encrypt_stream aesE key i (rest.take (min t rest.length)))
            ++ PADDING_MARKER
            ++ fillerBytes (paddingHash i)
              ((find_optimal_capsule_size
                (gz (encrypt_stream aesE key i (rest.take (min t rest.length)))).length t)
                - (gz (encrypt_stream aesE key i (rest.take (min t rest.length)))).length
                - 8)
            ++ le32 (gz (encrypt_stream aesE key i (rest.take (min t rest.length)))).length).length
          = find_optimal_capsule_size
            (gz (encrypt_stream aesE key i (rest.take (min t rest.length)))).length t := by
        simp only [List.length_append, hflen, PADDING_MARKER, le32]
        simp only [List.length_cons, List.length_nil]
        omega
      have hrunEq : runChunks gz aesE key rest (t :: ps) i
          = .ok ((CapsuleHeader.new i
              (find_optimal_capsule_size
                (gz (encrypt_stream aesE key i (rest.take (min t rest.length)))).length t)
              ((gz (encrypt_stream aesE key i (rest.take (min t rest.length)))
                ++ PADDING_MARKER
                ++ fillerBytes (paddingHash i)
                  ((find_optimal_capsule_size
                    (gz (encrypt_stream aesE key i (rest.take (min t rest.length)))).length t)
                    - (gz (encrypt_stream aesE key i (rest.take (min t rest.length)))).length
                    - 8)
                ++ le32 (gz (encrypt_stream aesE key i
                  (rest.take (min t rest.length)))).length).length)
              key.isSome true,
              gz (encrypt_stream aesE key i (rest.take (min t rest.length)))
                ++ PADDING_MARKER
                ++ fillerBytes (paddingHash i)
                  ((find_optimal_capsule_size
                    (gz (encrypt_stream aesE key i (rest.take (min t rest.length)))).length t)
                    - (gz (encrypt_stream aesE key i (rest.take (min t rest.length)))).length
                    - 8)
                ++ le32 (gz (encrypt_stream aesE key i
                  (rest.take (min t rest.length)))).length) :: items2,
            rest.take (min t rest.length) ++ rest.drop (min t rest.length)) := by
        simp only [runChunks, if_neg h0]
        rw [hpad, hrun2]
      rw [List.take_append_drop] at hrunEq
      have hchunks : chunksOf rest (t :: ps)
          = rest.take (min t rest.length)
            :: chunksOf (rest.drop (min t rest.length)) ps := by
        simp [chunksOf, h0]
      refine ⟨_, hrunEq, ?_, ?_⟩
      · rw [hchunks]
        simp [hlen2]
      intro j hd pay hj
      match j with
      | 0 =>
        simp only [List.getElem?_cons_zero, Option.some.injEq, Prod.mk.injEq] at hj
        obtain ⟨hj1, hj2⟩ := hj
        subst hj1
        subst hj2
        rw [hchunks]
        simp only [List.getD_cons_zero, Nat.add_zero]
        exact ⟨hplen, trivial⟩
      | Nat.succ j2 =>
        simp only [List.getElem?_cons_succ] at hj
        have hp := hprops2 j2 hd pay hj
        have hidx : i + 1 + j2 = i + (j2 + 1) := by omega
        rw [hidx] at hp
        rw [hchunks]
        simp only [List.getD_cons_succ]
        exact hp

theorem create_empty_eq (gz : List Nat → List Nat)
    (aesE : List Nat → List Nat → List Nat → List Nat)
    (pass : Option (List Nat)) (payload : List Nat)
    (hpad : add_deterministic_padding
      (gz (encrypt_stream aesE (pass.map derive_consensus_key) 0 []))
      (gz (encrypt_stream aesE (pass.map derive_consensus_key) 0 [])).length
      (CAPSULE_SIZES.getD 0 0) 0 = .ok payload) :
    create_data_capsule gz aesE [] pass
      = .ok ({ id := hexEncode (sha256 []),
               capsules := [{ index := 0,
                              size := CAPSULE_SIZES.getD 0 0,
                              hash := hexEncode (sha256
                                ((CapsuleHeader.new 0 (CAPSULE_SIZES.getD 0 0)
                                  payload.length
                                  (pass.map derive_consensus_key).isSome
                                  true).to_bytes ++ payload)),
                              encrypted := (pass.map derive_consensus_key).isSome,
                              compressed := true }],
               metadata := { original_size := 0,
                             capsule_count := 1,
                             capsule_sizes := [CAPSULE_SIZES.getD 0 0],
                             checksum := hexEncode (sha256 []),
                             chunking_algorithm := "DIG_DETERMINISTIC_V1",
                             consensus_version := "DIG_CAPSULE_V1",
                             encryption_info := pass.map (fun _ => standardEncryptionInfo),
                             compression_info := some { algorithm := "gzip",
                                                        level := 6,
                                                        original_size := 0 } } },
          [(CapsuleHeader.new 0 (CAPSULE_SIZES.getD 0 0) payload.length
            (pass.map derive_consensus_key).isSome true).to_bytes ++ payload]) := by
  simp only [create_data_capsule, List.length_nil, if_pos]
  rw [hpad]

theorem create_main_eq (gz : List Nat → List Nat)
    (aesE : List Nat → List Nat → List Nat → List Nat)
    (input : List Nat) (pass : Option (List Nat))
    (hin : ¬ input.length = 0) (items : List (CapsuleHeader × List Nat))
    (hrun : runChunks gz aesE (pass.map derive_consensus_key) input
      (determine_chunk_sizes input.length) 0 = .ok (items, input)) :
    create_data_capsule gz aesE input pass
      = .ok ({ id := hexEncode (sha256 input),
               capsules := items.enum.map (fun p =>
                 ({ index := p.1,
                    size := p.2.1.capsule_size,
                    hash := hexEncode (sha256 (p.2.1.to_bytes ++ p.2.2)),
                    encrypted := (pass.map derive_consensus_key).isSome,
                    compressed := true } : Capsule)),
               metadata := { original_size := input.length,
                             capsule_count := items.length,
                             capsule_sizes := determine_chunk_sizes input.length,
                             checksum := hexEncode (sha256 input),
                             chunking_algorithm := "DIG_DETERMINISTIC_V1",
                             consensus_version := "DIG_CAPSULE_V1",
                             encryption_info := pass.map (fun _ => standardEncryptionInfo),
                             compression_info := some { algorithm := "gzip",
                                                        level := 6,
                                                        original_size := input.length } } },
          items.map (fun it => it.1.to_bytes ++ it.2)) := by
  simp only [create_data_capsule]
  rw [if_neg hin, hrun]

theorem extract_data_capsule_eq (gzD : List Nat → List Nat)
    (aesD : List Nat → List Nat → List Nat → Option (List Nat))
    (set : CapsuleSet) (files : List (List Nat)) (pass : Option (List Nat))
    (out : List Nat) (n : Nat)
    (hcn : set.metadata.capsule_count = n)
    (hcount : n ≤ files.length)
    (hfiles : extractFiles gzD aesD (pass.map derive_consensus_key)
      (files.take n) = .ok out)
    (hck : hexEncode (sha256 out) = set.metadata.checksum) :
    extract_data_capsule gzD aesD set files pass = .ok out := by
  unfold extract_data_capsule
  rw [hcn, if_pos hcount]
  simp only [hfiles]
  rw [if_pos hck]

/-- Claim C1 (amended): extracting the capsule set produced by create with
the same passphrase yields exactly the input, `extract(create(B, P), P) = B`,
*provided every compressed chunk leaves room for padding*.  The external
gzip codec and AES-256-GCM cipher are parameters constrained by their
inverse laws; the size hypotheses say that each compressed chunk is at
least 4 bytes and leaves room for the minimum padding in the largest
capsule, and that compressing the empty chunk fits in a 256 KiB capsule.
The padding-room hypothesis `Hc` cannot be dropped: when a compressed chunk
exceeds the largest ladder size the file is written unpadded and the
round trip can fail (see the companion counterexample), so the universal
form of the claim is false of the program. -/
theorem C1_create_extract_round_trip (gz gzD : List Nat → List Nat)
    (aesE : List Nat → List Nat → List Nat → List Nat)
    (aesD : List Nat → List Nat → List Nat → Option (List Nat))
    (input : List Nat) (pass : Option (List Nat))
    (Hgz : ∀ x, gzD (gz x) = x)
    (Haes : ∀ k n m, aesD k n (aesE k n m) = some m)
    (Hc : ∀ i c, c.length ≤ input.length →
      4 ≤ (gz (encrypt_stream aesE (pass.map derive_consensus_key) i c)).length
        ∧ (gz (encrypt_stream aesE (pass.map derive_consensus_key) i c)).length
            + 1032 ≤ 1048576000)
    (Hempty : input = [] →
      4 ≤ (gz (encrypt_stream aesE (pass.map derive_consensus_key) 0 [])).length
        ∧ (gz (encrypt_stream aesE (pass.map derive_consensus_key) 0 [])).length
            + 9 ≤ 262144) :
    capsule_round_trip gz gzD aesE aesD input pass = .ok input := by
  by_cases hin : input.length = 0
  · have hnil : input = [] := List.length_eq_zero.mp hin
    subst hnil
    obtain ⟨h4e, h9e⟩ := Hempty rfl
    have hsz : CAPSULE_SIZES.getD 0 0 = 262144 := rfl
    set key := pass.map derive_consensus_key with hkey
    set comp := gz (encrypt_stream aesE key 0 []) with hcompdef
    have hpad := add_padding_ok comp comp.length (CAPSULE_SIZES.getD 0 0) 0
      (by rw [hsz]; omega) (by rw [hsz]; unfold U64; omega)
    set filler := fillerBytes (paddingHash 0)
      (CAPSULE_SIZES.getD 0 0 - comp.length - 8) with hfdef
    set payload := comp ++ PADDING_MARKER ++ filler ++ le32 comp.length with hpdef
    set hdr := CapsuleHeader.new 0 (CAPSULE_SIZES.getD 0 0) payload.length
      key.isSome true with hhdef
    have hflen : filler.length = CAPSULE_SIZES.getD 0 0 - comp.length - 8 := by
      rw [hfdef]
      exact fillerBytes_length _ (by rw [paddingHash_length]) _
    have hhl : hdr.to_bytes.length = CAPSULE_HEADER_SIZE := by
      rw [hhdef]
      exact new_to_bytes_length _ _ _ _ _
    have hrp : remove_padding payload = comp := by
      rw [hpdef]
      exact remove_padding_roundtrip comp filler (by omega) (by unfold U32; omega)
        (by rw [hflen, hsz]; omega)
    have hde := decrypt_encrypt aesE aesD Haes key 0 []
    have hnilx : extractFiles gzD aesD key [] = .ok [] := rfl
    have hfb : CapsuleHeader.from_bytes ((hdr.to_bytes ++ payload).take
        CAPSULE_HEADER_SIZE) = .ok (truncHeader hdr) := by
      rw [List.take_left' hhl, hhdef]
      exact from_bytes_new _ _ _ _ _
    have hcons := extractFiles_cons gzD aesD key (hdr.to_bytes ++ payload) []
      (truncHeader hdr) [] []
      (by rw [List.length_append, hhl]; unfold CAPSULE_HEADER_SIZE; omega)
      hfb
      (by rw [List.drop_left' hhl, hrp, hcompdef, Hgz]; exact hde)
      hnilx
    rw [List.nil_append] at hcons
    rw [hhdef, hkey] at hcons
    rw [hcompdef, hkey] at hpad
    unfold capsule_round_trip
    rw [create_empty_eq gz aesE pass payload hpad]
    dsimp only
    refine extract_data_capsule_eq gzD aesD _ _ pass [] 1 rfl (by simp) ?_ rfl
    have htake : ∀ x : List Nat, [x].take 1 = [x] := fun x => rfl
    rw [htake, ← hkey]
    exact hcons
  · have hplanmem : ∀ t ∈ determine_chunk_sizes input.length, t ∈ CAPSULE_SIZES :=
      fun t ht => mem_determine_chunk_sizes ht
    obtain ⟨items, hrun, hext, _⟩ := runChunks_extract gz gzD aesE aesD
      (pass.map derive_consensus_key) input.length Hgz Haes Hc
      (determine_chunk_sizes input.length) input 0 hplanmem (le_refl _)
      (sum_determine_chunk_sizes input.length)
    unfold capsule_round_trip
    rw [create_main_eq gz aesE input pass hin items hrun]
    dsimp only
    have htake : (items.map fun it => it.1.to_bytes ++ it.2).take items.length
        = items.map fun it => it.1.to_bytes ++ it.2 := by
      rw [show items.length = (items.map fun it => it.1.to_bytes ++ it.2).length by
        rw [List.length_map]]
      exact List.take_length _
    refine extract_data_capsule_eq gzD aesD _ _ pass input items.length rfl
      (by rw [List.length_map]) ?_ rfl
    rw [htake]
    exact hext

/-- Claim C5: for every positive total size, the chunk-size plan equals the
greedy largest-first decomposition over the ladder with one extra 256 KiB
entry exactly when a nonzero remainder is left; in particular a total size
of 262145 yields the plan [256 KiB, 256 KiB]. -/
theorem C5_chunk_plan_greedy :
    (∀ n, 0 < n → determine_chunk_sizes n = greedyPlanSpec n)
      ∧ determine_chunk_sizes 262145 = [262144, 262144] := by
  constructor
  · intro n _
    exact determine_chunk_sizes_eq_greedy n
  · rw [determine_chunk_sizes_eq_greedy]
    rfl

theorem C5_chunk_plan_greedy_witness :
    0 < 5 ∧ determine_chunk_sizes 5 = greedyPlanSpec 5
      ∧ determine_chunk_sizes 262145 = [262144, 262144] :=
  ⟨by norm_num, C5_chunk_plan_greedy.1 5 (by norm_num), C5_chunk_plan_greedy.2⟩

/-- Claim C8: the size-upgrade policy equals the specified policy exactly:
with `D` the compressed length and `M = 8`, return the planned target when
`D + M + floor(0.05 D)` fits, else when `D + M + max(floor(0.01 D), 1024)`
fits, else the first strictly larger ladder rung that fits with 5% padding,
else the largest ladder size. -/
theorem C8_size_upgrade_policy (d t : Nat) :
    find_optimal_capsule_size d t = sizeUpgradePolicySpec d t :=
  find_optimal_eq_spec d t

/-- Claim C4 counterexample: at processed length 0, capsule size 52 and
chunk index 0, the claimed `pad_len = (52 - 44) - 0 - 4 - 4` is 0, so the
claim predicts a `ConsensusViolation`; the code instead succeeds and emits
a 52-byte payload with 44 filler bytes (its `pad_len` is `52 - 0 - 4 - 4`). -/
theorem C4_padding_counterexample :
    (52 - 44) - 0 - 4 - 4 = 0
      ∧ ∃ q, add_deterministic_padding [] 0 52 0 = .ok q ∧ q.length = 52 := by
  refine ⟨rfl, _, add_padding_ok [] 0 52 0 (by norm_num)
    (by unfold U64; norm_num), ?_⟩
  have hf := fillerBytes_length (paddingHash 0) (by rw [paddingHash_length]) (52 - 0 - 8)
  simp [PADDING_MARKER, le32, hf]

/-- Claim C4 (amended): for a processed length `D` below the chosen size
`T'`, the padding step emits exactly `pad_len = T' - D - 4 - 4` filler bytes
(the header size is not subtracted) between the 4-byte marker and the 4-byte
footer, and fails with `ConsensusViolation` exactly when that `pad_len` is
zero, i.e. when `T' = D + 8`; when `D >= T'` the data is returned without
any padding. -/
theorem C4_padding_amended (data : List Nat) (cur t i : Nat) (h64 : t < U64) :
    (cur + 8 < t →
      add_deterministic_padding data cur t i
          = .ok (data ++ PADDING_MARKER
              ++ fillerBytes (paddingHash i) (t - cur - 4 - 4) ++ le32 cur)
        ∧ (fillerBytes (paddingHash i) (t - cur - 4 - 4)).length = t - cur - 4 - 4)
    ∧ (t = cur + 8 →
      add_deterministic_padding data cur t i
        = .error (.ConsensusViolation ("No space available for padding")))
    ∧ (t ≤ cur → add_deterministic_padding data cur t i = .ok data) := by
  refine ⟨fun h => ⟨?_, fillerBytes_length _ (by rw [paddingHash_length]) _⟩,
    fun h => add_padding_zero data cur t i h,
    fun h => add_padding_skip data cur t i h⟩
  have he : t - cur - 4 - 4 = t - cur - 8 := by omega
  rw [he]
  exact add_padding_ok data cur t i h (by omega)

theorem C4_padding_amended_witness :
    52 < U64
      ∧ ((0 + 8 < 52 →
        add_deterministic_padding [] 0 52 0
            = .ok ([] ++ PADDING_MARKER
                ++ fillerBytes (paddingHash 0) (52 - 0 - 4 - 4) ++ le32 0)
          ∧ (fillerBytes (paddingHash 0) (52 - 0 - 4 - 4)).length = 52 - 0 - 4 - 4)
      ∧ (52 = 0 + 8 →
        add_deterministic_padding [] 0 52 0
          = .error (.ConsensusViolation ("No space available for padding")))
      ∧ (52 ≤ 0 → add_deterministic_padding [] 0 52 0 = .ok [])) :=
  ⟨by unfold U64; norm_num,
    C4_padding_amended [] 0 52 0 (by unfold U64; norm_num)⟩

/-- Claim C7: padding round-trip.  For every processed byte string of length
at least 4 (and below 2^32, the width of the length footer), every chunk
index, and every target size leaving at least one filler byte (and below
2^64, the usize width), unpadding the padded output returns exactly the
processed bytes, whatever the filler contains: the tail-first scan is
insensitive to marker collisions inside the filler. -/
theorem C7_padding_round_trip (P : List Nat) (i T : Nat)
    (h4 : 4 ≤ P.length) (hT : P.length + 9 ≤ T) (h32 : P.length < U32)
    (h64 : T < U64) :
    ∃ q, add_deterministic_padding P P.length T i = .ok q
      ∧ remove_padding q = P := by
  refine ⟨_, add_padding_ok P P.length T i (by omega) (by omega), ?_⟩
  exact remove_padding_roundtrip P _ h4 h32
    (by rw [fillerBytes_length _ (by rw [paddingHash_length])]; omega)

theorem C7_padding_round_trip_witness :
    4 ≤ ([1, 2, 3, 4] : List Nat).length
      ∧ ([1, 2, 3, 4] : List Nat).length + 9 ≤ 100
      ∧ ∃ q, add_deterministic_padding [1, 2, 3, 4]
          ([1, 2, 3, 4] : List Nat).length 100 7 = .ok q
        ∧ remove_padding q = [1, 2, 3, 4] :=
  ⟨by norm_num, by norm_num,
    C7_padding_round_trip [1, 2, 3, 4] 7 100 (by norm_num) (by norm_num)
      (by unfold U32; norm_num) (by unfold U64; norm_num)⟩

theorem C1_create_extract_round_trip_witness :
    capsule_round_trip (fun x => [0, 0, 0, 0] ++ x) (fun x => x.drop 4)
      (fun _ _ m => m) (fun _ _ c => some c) [1, 2, 3] none = .ok [1, 2, 3] :=
  C1_create_extract_round_trip (fun x => [0, 0, 0, 0] ++ x) (fun x => x.drop 4)
    (fun _ _ m => m) (fun _ _ c => some c) [1, 2, 3] none
    (fun x => by simp)
    (fun k n m => rfl)
    (fun i c hc => by
      have he : encrypt_stream (fun _ _ m => m) (Option.map derive_consensus_key none) i c
          = c := rfl
      rw [he]
      simp only [List.length_append, List.length_cons, List.length_nil] at hc ⊢
      omega)
    (fun h => absurd h (by decide))

/-- A well-formed header whose version field is 2 (base record, checksum 0). -/
def versionTwoBase : CapsuleHeader :=
  { magic := CAPSULE_MAGIC, version := 2, capsule_index := 0,
    capsule_size := 262144, data_size := 262144, flags := 2,
    reserved := List.replicate 8 0, header_checksum := 0, data_offset := 44 }

/-- The version-2 header with its correct CRC filled in. -/
def versionTwoHeader : CapsuleHeader :=
  { versionTwoBase with
    header_checksum := versionTwoBase.calculate_checksum_without_field }

theorem versionTwoHeader_checksum :
    versionTwoHeader.header_checksum
      = versionTwoHeader.calculate_checksum_without_field := by
  have h1 : versionTwoHeader.header_checksum
      = versionTwoBase.calculate_checksum_without_field := rfl
  have h2 : versionTwoHeader.calculate_checksum_without_field
      = versionTwoBase.calculate_checksum_without_field :=
    calc_checksum_of_fields _ _ rfl rfl rfl rfl rfl rfl rfl rfl
  rw [h1, h2]

theorem validateHeaderBytes_of_ok (bs : List Nat) (h : CapsuleHeader)
    (hfb : CapsuleHeader.from_bytes bs = .ok h) :
    validateHeaderBytes bs
      = (if h.version ≠ CAPSULE_VERSION then
          .error (.ConsensusViolation ("Unsupported capsule version"))
        else if ¬ h.capsule_size ∈ CAPSULE_SIZES then
          .error (.ConsensusViolation ("Invalid capsule size"))
        else if h.data_offset ≠ CAPSULE_HEADER_SIZE then .error .InvalidFormat
        else .ok h) := by
  unfold validateHeaderBytes
  rw [hfb]

theorem validateHeaderBytes_of_error (bs : List Nat) (e : CapsuleError)
    (hfb : CapsuleHeader.from_bytes bs = .error e) :
    validateHeaderBytes bs = .error e := by
  unfold validateHeaderBytes
  rw [hfb]

/-- Claim C3 counterexample: the 44 bytes of a header whose version field is
2 but whose magic and CRC are correct are accepted by
`CapsuleHeader::from_bytes` (refuting that deserialization succeeds only
when the version equals 1), and the version check of
`validate_capsule_file_internal` rejects them with a `ConsensusViolation`,
which is neither `InvalidFormat` nor `ChecksumMismatch`. -/
theorem C3_header_validation_counterexample :
    (∃ h2, CapsuleHeader.from_bytes versionTwoHeader.to_bytes = .ok h2
      ∧ h2.version = 2)
      ∧ validateHeaderBytes versionTwoHeader.to_bytes
          = .error (.ConsensusViolation ("Unsupported capsule version")) := by
  have hfb := from_bytes_to_bytes versionTwoHeader rfl rfl versionTwoHeader_checksum
  have hv : (truncHeader versionTwoHeader).version = 2 := rfl
  refine ⟨⟨truncHeader versionTwoHeader, hfb, hv⟩, ?_⟩
  rw [validateHeaderBytes_of_ok _ _ hfb]
  rw [if_pos (by rw [hv]; decide)]

theorem from_bytes_eq (bs : List Nat) :
    CapsuleHeader.from_bytes bs
      = (if bs.length < CAPSULE_HEADER_SIZE then .error .InvalidFormat
        else if bs.take 8 ≠ CAPSULE_MAGIC then .error .InvalidFormat
        else if (headerFieldsOf bs).header_checksum
            ≠ (headerFieldsOf bs).calculate_checksum_without_field then
          .error .ChecksumMismatch
        else .ok (headerFieldsOf bs)) := rfl

theorem from_bytes_ok_eq (bs : List Nat) (h : CapsuleHeader)
    (hfb : CapsuleHeader.from_bytes bs = .ok h) : h = headerFieldsOf bs := by
  rw [from_bytes_eq] at hfb
  split_ifs at hfb <;> simp_all

theorem le32_leDecode4 (w : List Nat) (hw : w.length = 4)
    (hb : ∀ b ∈ w, b < 256) : le32 (leDecode4 w) = w := by
  match w, hw with
  | [a, b, c, d], _ =>
    have ha : a < 256 := hb a (by simp)
    have hbb : b < 256 := hb b (by simp)
    have hc : c < 256 := hb c (by simp)
    have hd : d < 256 := hb d (by simp)
    simp only [le32, leDecode4, List.getD, List.get?_cons_zero,
      List.get?_cons_succ, List.getElem?_cons_zero, List.getElem?_cons_succ,
      Option.getD_some, List.cons.injEq, and_true]
    refine ⟨?_, ?_, ?_, ?_⟩ <;> omega

theorem take_add_split {α : Type} (bs : List α) (k m n : Nat) :
    (bs.drop k).take (m + n) = (bs.drop k).take m ++ (bs.drop (k + m)).take n := by
  rw [List.take_add, List.drop_drop]

theorem checksum_wire (bs : List Nat) (hlen : 44 ≤ bs.length)
    (hb : ∀ b ∈ bs, b < 256) :
    (headerFieldsOf bs).calculate_checksum_without_field
      = crc32 (bs.take 36 ++ (bs.drop 40).take 4) := by
  have hseg : ∀ k, k + 4 ≤ 44 →
      le32 (leDecode4 ((bs.drop k).take 4)) = (bs.drop k).take 4 := by
    intro k hk
    apply le32_leDecode4
    · rw [List.length_take, List.length_drop]
      omega
    · intro b hbm
      exact hb b (List.mem_of_mem_drop (List.mem_of_mem_take hbm))
  unfold CapsuleHeader.calculate_checksum_without_field headerFieldsOf
  rw [hseg 8 (by norm_num), hseg 12 (by norm_num), hseg 16 (by norm_num),
    hseg 20 (by norm_num), hseg 24 (by norm_num), hseg 40 (by norm_num)]
  congr 1
  have s1 : bs.take 36 = bs.take 8 ++ (bs.drop 8).take 28 := List.take_add bs 8 28
  have s2 : (bs.drop 8).take 28 = (bs.drop 8).take 4 ++ (bs.drop 12).take 24 :=
    take_add_split bs 8 4 24
  have s3 : (bs.drop 12).take 24 = (bs.drop 12).take 4 ++ (bs.drop 16).take 20 :=
    take_add_split bs 12 4 20
  have s4 : (bs.drop 16).take 20 = (bs.drop 16).take 4 ++ (bs.drop 20).take 16 :=
    take_add_split bs 16 4 16
  have s5 : (bs.drop 20).take 16 = (bs.drop 20).take 4 ++ (bs.drop 24).take 12 :=
    take_add_split bs 20 4 12
  have s6 : (bs.drop 24).take 12 = (bs.drop 24).take 4 ++ (bs.drop 28).take 8 :=
    take_add_split bs 24 4 8
  rw [s1, s2, s3, s4, s5, s6]
  simp [List.append_assoc]

/-- Claim C3 (amended): header validation as the source performs it.  Full
validation (`from_bytes` followed by the consensus checks of
`validate_capsule_file_internal`) succeeds exactly when the length is at
least 44, the magic equals DIGCAP01, the CRC32 over the other 40 header
bytes in on-wire order equals `header_checksum`, the version equals 1, the
capsule size is on the ladder, and `data_offset` equals 44.
`CapsuleHeader::from_bytes` alone checks only the first three conditions: a
short input or a bad magic yields `InvalidFormat` and a CRC mismatch yields
`ChecksumMismatch`, but a wrong version or a non-ladder size is *accepted*
by `from_bytes` and only rejected later with `ConsensusViolation` (not
`InvalidFormat`), and a bad `data_offset` is rejected later with
`InvalidFormat`. -/
theorem C3_header_validation_amended (bs : List Nat) (hb : ∀ b ∈ bs, b < 256) :
    ((∃ h, validateHeaderBytes bs = .ok h) ↔
        (44 ≤ bs.length ∧ bs.take 8 = CAPSULE_MAGIC
          ∧ (headerFieldsOf bs).header_checksum
              = crc32 (bs.take 36 ++ (bs.drop 40).take 4)
          ∧ (headerFieldsOf bs).version = 1
          ∧ (headerFieldsOf bs).capsule_size ∈ CAPSULE_SIZES
          ∧ (headerFieldsOf bs).data_offset = 44))
    ∧ ((∃ h, CapsuleHeader.from_bytes bs = .ok h) ↔
        (44 ≤ bs.length ∧ bs.take 8 = CAPSULE_MAGIC
          ∧ (headerFieldsOf bs).header_checksum
              = crc32 (bs.take 36 ++ (bs.drop 40).take 4)))
    ∧ (bs.length < 44 →
        CapsuleHeader.from_bytes bs = .error .InvalidFormat
        ∧ validateHeaderBytes bs = .error .InvalidFormat)
    ∧ (44 ≤ bs.length → ¬ bs.take 8 = CAPSULE_MAGIC →
        CapsuleHeader.from_bytes bs = .error .InvalidFormat
        ∧ validateHeaderBytes bs = .error .InvalidFormat)
    ∧ (44 ≤ bs.length → bs.take 8 = CAPSULE_MAGIC →
        ¬ (headerFieldsOf bs).header_checksum
            = crc32 (bs.take 36 ++ (bs.drop 40).take 4) →
        CapsuleHeader.from_bytes bs = .error .ChecksumMismatch
        ∧ validateHeaderBytes bs = .error .ChecksumMismatch)
    ∧ (∀ h, CapsuleHeader.from_bytes bs = .ok h → ¬ h.version = 1 →
        validateHeaderBytes bs
          = .error (.ConsensusViolation ("Unsupported capsule version")))
    ∧ (∀ h, CapsuleHeader.from_bytes bs = .ok h → h.version = 1 →
        ¬ h.capsule_size ∈ CAPSULE_SIZES →
        validateHeaderBytes bs
          = .error (.ConsensusViolation ("Invalid capsule size")))
    ∧ (∀ h, CapsuleHeader.from_bytes bs = .ok h → h.version = 1 →
        h.capsule_size ∈ CAPSULE_SIZES → ¬ h.data_offset = 44 →
        validateHeaderBytes bs = .error .InvalidFormat) := by
  have hfb := from_bytes_eq bs
  have hok : (∃ h, CapsuleHeader.from_bytes bs = .ok h) ↔
      (44 ≤ bs.length ∧ bs.take 8 = CAPSULE_MAGIC
        ∧ (headerFieldsOf bs).header_checksum
            = (headerFieldsOf bs).calculate_checksum_without_field) := by
    constructor
    · rintro ⟨h, hh⟩
      rw [hfb] at hh
      split_ifs at hh with c1 c2 c3
      refine ⟨?_, ?_, ?_⟩
      · unfold CAPSULE_HEADER_SIZE at c1
        omega
      · exact not_not.mp c2
      · exact not_not.mp c3
    · rintro ⟨hl, hm, hc⟩
      rw [hfb, if_neg (by unfold CAPSULE_HEADER_SIZE; omega),
        if_neg (by simp [hm]), if_neg (by simp [hc])]
      exact ⟨_, rfl⟩
  refine ⟨?_, ?_, ?_, ?_, ?_, ?_, ?_, ?_⟩
  · constructor
    · rintro ⟨h, hh⟩
      have hfbok : CapsuleHeader.from_bytes bs = .ok h := by
        rcases hv : CapsuleHeader.from_bytes bs with e | h0
        · rw [validateHeaderBytes_of_error _ _ hv] at hh
          cases hh
        · rw [validateHeaderBytes_of_ok _ _ hv] at hh
          split_ifs at hh
          cases hh
          rfl
      have heq : h = headerFieldsOf bs := from_bytes_ok_eq bs h hfbok
      obtain ⟨hl, hm, hc⟩ := hok.mp ⟨h, hfbok⟩
      rw [validateHeaderBytes_of_ok _ _ hfbok] at hh
      split_ifs at hh with v1 v2 v3
      refine ⟨hl, hm, ?_, ?_, ?_, ?_⟩
      · rw [← checksum_wire bs hl hb]
        exact hc
      · rw [← heq]
        simpa [CAPSULE_VERSION] using not_not.mp v1
      · rw [← heq]
        exact v2
      · rw [← heq]
        simpa [CAPSULE_HEADER_SIZE] using not_not.mp v3
    · rintro ⟨hl, hm, hc, hv, hs, ho⟩
      have hc' : (headerFieldsOf bs).header_checksum
          = (headerFieldsOf bs).calculate_checksum_without_field := by
        rw [checksum_wire bs hl hb]
        exact hc
      obtain ⟨h, hfbok⟩ := hok.mpr ⟨hl, hm, hc'⟩
      have heq : h = headerFieldsOf bs := from_bytes_ok_eq bs h hfbok
      rw [validateHeaderBytes_of_ok _ _ hfbok,
        if_neg (by simp [heq, hv, CAPSULE_VERSION]),
        if_neg (by simp [heq, hs]),
        if_neg (by simp [heq, ho, CAPSULE_HEADER_SIZE])]
      exact ⟨_, rfl⟩
  · constructor
    · intro hx
      obtain ⟨hl, hm, hc⟩ := hok.mp hx
      exact ⟨hl, hm, by rw [← checksum_wire bs hl hb]; exact hc⟩
    · rintro ⟨hl, hm, hc⟩
      exact hok.mpr ⟨hl, hm, by rw [checksum_wire bs hl hb]; exact hc⟩
  · intro hl
    have h1 : CapsuleHeader.from_bytes bs = .error .InvalidFormat := by
      rw [hfb, if_pos (by unfold CAPSULE_HEADER_SIZE; omega)]
    exact ⟨h1, validateHeaderBytes_of_error _ _ h1⟩
  · intro hl hm
    have h1 : CapsuleHeader.from_bytes bs = .error .InvalidFormat := by
      rw [hfb, if_neg (by unfold CAPSULE_HEADER_SIZE; omega), if_pos hm]
    exact ⟨h1, validateHeaderBytes_of_error _ _ h1⟩
  · intro hl hm hc
    have hc' : ¬ (headerFieldsOf bs).header_checksum
        = (headerFieldsOf bs).calculate_checksum_without_field := by
      rw [checksum_wire bs hl hb]
      exact hc
    have h1 : CapsuleHeader.from_bytes bs = .error .ChecksumMismatch := by
      rw [hfb, if_neg (by unfold CAPSULE_HEADER_SIZE; omega),
        if_neg (by simp [hm]), if_pos hc']
    exact ⟨h1, validateHeaderBytes_of_error _ _ h1⟩
  · intro h hfbok hv
    rw [validateHeaderBytes_of_ok _ _ hfbok,
      if_pos (by simp [CAPSULE_VERSION, hv])]
  · intro h hfbok hv hs
    rw [validateHeaderBytes_of_ok _ _ hfbok,
      if_neg (by simp [CAPSULE_VERSION, hv]), if_pos hs]
  · intro h hfbok hv hs ho
    rw [validateHeaderBytes_of_ok _ _ hfbok,
      if_neg (by simp [CAPSULE_VERSION, hv]), if_neg (by simp [hs]),
      if_pos (by simp [CAPSULE_HEADER_SIZE, ho])]

theorem C3_header_validation_amended_witness :
    (∀ b ∈ List.replicate 43 0, b < 256)
    ∧ (List.replicate 43 0 : List Nat).length < 44
    ∧ (CapsuleHeader.from_bytes (List.replicate 43 0) = .error .InvalidFormat
        ∧ validateHeaderBytes (List.replicate 43 0) = .error .InvalidFormat) :=
  ⟨by decide, by decide,
    (C3_header_validation_amended (List.replicate 43 0) (by decide)).2.2.1
      (by decide)⟩

/-- Claim C10: the diagnostic entry points never surface an error.  For every
file content (including a missing file, modelled as `none`),
`is_valid_capsule_file` returns `Ok true` or `Ok false` and
`get_capsule_file_info` returns `Ok (some info)` or `Ok none`: every internal
validation failure is mapped to `false` / `none`, and success is mapped to
`true` / `some`. -/
theorem C10_diagnostics_never_error (c : Option (List Nat)) :
    ((∃ b, is_valid_capsule_file c = .ok b)
      ∧ (∃ o, get_capsule_file_info c = .ok o))
    ∧ (∀ e, is_valid_capsule_file c ≠ .error e)
    ∧ (∀ e, get_capsule_file_info c ≠ .error e)
    ∧ (is_valid_capsule_file c = .ok true
        ↔ ∃ h, validate_capsule_file_internal c = .ok h)
    ∧ (is_valid_capsule_file c = .ok false
        ↔ ∃ e, validate_capsule_file_internal c = .error e)
    ∧ (get_capsule_file_info c = .ok none
        ↔ ∃ e, validate_capsule_file_internal c = .error e) := by
  cases hv : validate_capsule_file_internal c with
  | ok h =>
    refine ⟨⟨?_, ?_⟩, ?_, ?_, ?_, ?_, ?_⟩ <;>
      simp [is_valid_capsule_file, get_capsule_file_info, hv]
  | error e =>
    refine ⟨⟨?_, ?_⟩, ?_, ?_, ?_, ?_, ?_⟩ <;>
      simp [is_valid_capsule_file, get_capsule_file_info, hv]

/-- Claim C6: for empty input one single 256 KiB capsule is produced.
`determine_chunk_sizes 0` itself is the empty plan; the special case lives in
the `input_size == 0` branch of create, which records the plan `[262144]` in
the manifest and emits exactly one capsule of size 262144 (one file).  The
hypothesis says that compressing the encrypted empty stream leaves room for
padding in a 256 KiB capsule, which is true of real gzip output. -/
theorem C6_empty_input_single_capsule (gz : List Nat → List Nat)
    (aesE : List Nat → List Nat → List Nat → List Nat)
    (pass : Option (List Nat))
    (hsmall : (gz (encrypt_stream aesE (pass.map derive_consensus_key) 0 [])).length
        + 8 < 262144) :
    determine_chunk_sizes 0 = []
    ∧ ∃ s files, create_data_capsule gz aesE [] pass = .ok (s, files)
        ∧ s.metadata.capsule_sizes = [262144]
        ∧ s.metadata.capsule_count = 1
        ∧ s.capsules.length = 1
        ∧ files.length = 1
        ∧ ∀ c ∈ s.capsules, c.size = 262144 := by
  constructor
  · rw [determine_chunk_sizes_eq_greedy]
    rfl
  · set key := pass.map derive_consensus_key with hkey
    set comp := gz (encrypt_stream aesE key 0 []) with hcompdef
    have hsz : CAPSULE_SIZES.getD 0 0 = 262144 := rfl
    have hpad := add_padding_ok comp comp.length (CAPSULE_SIZES.getD 0 0) 0
      (by rw [hsz]; omega) (by rw [hsz]; unfold U64; omega)
    set payload := comp ++ PADDING_MARKER
      ++ fillerBytes (paddingHash 0) (CAPSULE_SIZES.getD 0 0 - comp.length - 8)
      ++ le32 comp.length with hpdef
    refine ⟨_, _, create_empty_eq gz aesE pass payload hpad, ?_, ?_, ?_, ?_, ?_⟩
    · rfl
    · rfl
    · rfl
    · rfl
    · intro c hc
      simp only [List.mem_singleton] at hc
      rw [hc]
      rfl

theorem C6_empty_input_single_capsule_witness :
    ((fun x => [0, 0, 0, 0] ++ x) (encrypt_stream (fun _ _ m => m)
        ((none : Option (List Nat)).map derive_consensus_key) 0 [])).length
      + 8 < 262144
    ∧ (determine_chunk_sizes 0 = []
      ∧ ∃ s files, create_data_capsule (fun x => [0, 0, 0, 0] ++ x)
            (fun _ _ m => m) [] none = .ok (s, files)
          ∧ s.metadata.capsule_sizes = [262144]
          ∧ s.metadata.capsule_count = 1
          ∧ s.capsules.length = 1
          ∧ files.length = 1
          ∧ ∀ c ∈ s.capsules, c.size = 262144) :=
  ⟨by decide,
    C6_empty_input_single_capsule (fun x => [0, 0, 0, 0] ++ x)
      (fun _ _ m => m) none (by decide)⟩

theorem chunksOf_length_le (rest plan : List Nat) :
    (chunksOf rest plan).length ≤ plan.length := by
  induction plan generalizing rest with
  | nil => simp [chunksOf]
  | cons t ps ih =>
    rw [chunksOf]
    split
    · simp
    · simpa using Nat.succ_le_succ (ih (rest.drop (min t rest.length)))

/-- Claim C9: in the manifest produced by create on non-empty input,
`metadata.capsule_sizes` records the planned target sizes from the chunking
law (`determine_chunk_sizes`), while each entry of `capsules` records in its
`size` field the possibly-upgraded authoritative size
(`find_optimal_capsule_size` of the processed chunk), which equals the
`capsule_size` field parsed back from that capsule file's header.  The
hypothesis constrains the external gzip/AES codecs exactly as in C1. -/
theorem C9_manifest_sizes (gz : List Nat → List Nat)
    (aesE : List Nat → List Nat → List Nat → List Nat)
    (input : List Nat) (pass : Option (List Nat))
    (hin : ¬ input.length = 0)
    (Hc : ∀ i c, c.length ≤ input.length →
      4 ≤ (gz (encrypt_stream aesE (pass.map derive_consensus_key) i c)).length
        ∧ (gz (encrypt_stream aesE (pass.map derive_consensus_key) i c)).length
            + 1032 ≤ 1048576000) :
    ∃ s files, create_data_capsule gz aesE input pass = .ok (s, files)
      ∧ s.metadata.capsule_sizes = determine_chunk_sizes input.length
      ∧ s.capsules.length = files.length
      ∧ ∀ j c, s.capsules[j]? = some c →
          c.size = find_optimal_capsule_size
            (gz (encrypt_stream aesE (pass.map derive_consensus_key) j
              ((chunksOf input (determine_chunk_sizes input.length)).getD j []))).length
            ((determine_chunk_sizes input.length).getD j 0)
          ∧ ∃ h, CapsuleHeader.from_bytes
                ((files.getD j []).take CAPSULE_HEADER_SIZE) = .ok h
              ∧ h.capsule_size = c.size := by
  set key := pass.map derive_consensus_key with hkey
  set plan := determine_chunk_sizes input.length with hplandef
  have hplanmem : ∀ t ∈ plan, t ∈ CAPSULE_SIZES := by
    intro t ht
    exact mem_determine_chunk_sizes ht
  have hsum : input.length ≤ plan.sum := sum_determine_chunk_sizes input.length
  obtain ⟨items, hrun, hlen, hprops⟩ :=
    runChunks_ok gz aesE key input.length Hc plan input 0 hplanmem le_rfl hsum
  have hcreate := create_main_eq gz aesE input pass hin items hrun
  refine ⟨_, _, hcreate, rfl, by simp, ?_⟩
  intro j c hc
  simp only [List.getElem?_map, List.getElem?_enum] at hc
  cases hj : items[j]? with
  | none =>
    rw [hj] at hc
    exact absurd hc (by simp)
  | some it =>
    obtain ⟨hd, pay⟩ := it
    rw [hj] at hc
    have hc2 : some ({ index := j, size := hd.capsule_size,
                       hash := hexEncode (sha256 (hd.to_bytes ++ pay)),
                       encrypted := key.isSome,
                       compressed := true } : Capsule) = some c := hc
    have hcval : c = { index := j, size := hd.capsule_size,
                       hash := hexEncode (sha256 (hd.to_bytes ++ pay)),
                       encrypted := key.isSome,
                       compressed := true } := (Option.some.inj hc2).symm
    obtain ⟨hpay, hhd⟩ := hprops j hd pay hj
    rw [Nat.zero_add] at hhd
    have hjlt : j < items.length := (List.getElem?_eq_some.mp hj).1
    have hjplan : j < plan.length :=
      lt_of_lt_of_le (hlen ▸ hjlt) (chunksOf_length_le input plan)
    have htj : plan.getD j 0 ∈ plan := by
      rw [List.getD_eq_getElem plan 0 hjplan]
      exact List.getElem_mem hjplan
    have htb := ladder_ge (hplanmem _ htj)
    have hub : find_optimal_capsule_size
        (gz (encrypt_stream aesE key j ((chunksOf input plan).getD j []))).length
        (plan.getD j 0) ≤ 1048576000 :=
      find_optimal_ub _ _ htb.2
    have hsize : c.size = find_optimal_capsule_size
        (gz (encrypt_stream aesE key j ((chunksOf input plan).getD j []))).length
        (plan.getD j 0) := by
      rw [hcval]
      show hd.capsule_size = _
      rw [hhd]
      exact new_capsule_size _ _ _ _ _
    refine ⟨hsize, ?_⟩
    have hfj : ((items.map fun it => it.1.to_bytes ++ it.2).getD j [])
        = hd.to_bytes ++ pay := by
      rw [List.getD_eq_getElem?_getD, List.getElem?_map, hj]
      rfl
    rw [hfj]
    have htake : (hd.to_bytes ++ pay).take CAPSULE_HEADER_SIZE = hd.to_bytes := by
      apply List.take_left'
      rw [hhd]
      exact new_to_bytes_length _ _ _ _ _
    rw [htake, hhd, from_bytes_new]
    refine ⟨_, rfl, ?_⟩
    have : (truncHeader (CapsuleHeader.new j
        (find_optimal_capsule_size
          (gz (encrypt_stream aesE key j ((chunksOf input plan).getD j []))).length
          (plan.getD j 0))
        pay.length key.isSome true)).capsule_size
        = find_optimal_capsule_size
          (gz (encrypt_stream aesE key j ((chunksOf input plan).getD j []))).length
          (plan.getD j 0) % U32 := rfl
    rw [this, hsize, Nat.mod_eq_of_lt (by unfold U32; omega)]

theorem C9_manifest_sizes_witness :
    (¬ ([7] : List Nat).length = 0)
    ∧ (∀ i c, c.length ≤ ([7] : List Nat).length →
        4 ≤ ((fun x => [0, 0, 0, 0] ++ x) (encrypt_stream (fun _ _ m => m)
          ((none : Option (List Nat)).map derive_consensus_key) i c)).length
        ∧ ((fun x => [0, 0, 0, 0] ++ x) (encrypt_stream (fun _ _ m => m)
          ((none : Option (List Nat)).map derive_consensus_key) i c)).length
            + 1032 ≤ 1048576000)
    ∧ ∃ s files, create_data_capsule (fun x => [0, 0, 0, 0] ++ x)
          (fun _ _ m => m) [7] none = .ok (s, files)
        ∧ s.metadata.capsule_sizes = determine_chunk_sizes ([7] : List Nat).length
        ∧ s.capsules.length = files.length
        ∧ ∀ j c, s.capsules[j]? = some c →
            c.size = find_optimal_capsule_size
              ((fun x => [0, 0, 0, 0] ++ x) (encrypt_stream (fun _ _ m => m)
                ((none : Option (List Nat)).map derive_consensus_key) j
                ((chunksOf [7]
                  (determine_chunk_sizes ([7] : List Nat).length)).getD j []))).length
              ((determine_chunk_sizes ([7] : List Nat).length).getD j 0)
            ∧ ∃ h, CapsuleHeader.from_bytes
                  ((files.getD j []).take CAPSULE_HEADER_SIZE) = .ok h
                ∧ h.capsule_size = c.size := by
  have hc : ∀ i c, c.length ≤ ([7] : List Nat).length →
      4 ≤ ((fun x => [0, 0, 0, 0] ++ x) (encrypt_stream (fun _ _ m => m)
        ((none : Option (List Nat)).map derive_consensus_key) i c)).length
      ∧ ((fun x => [0, 0, 0, 0] ++ x) (encrypt_stream (fun _ _ m => m)
        ((none : Option (List Nat)).map derive_consensus_key) i c)).length
          + 1032 ≤ 1048576000 := by
    intro i c hlc
    have he : encrypt_stream (fun _ _ m => m)
        ((none : Option (List Nat)).map derive_consensus_key) i c = c := rfl
    simp only [he, List.length_cons, List.length_nil, List.length_append] at hlc ⊢
    omega
  exact ⟨by decide, hc,
    C9_manifest_sizes (fun x => [0, 0, 0, 0] ++ x) (fun _ _ m => m) [7] none
      (by decide) hc⟩

/-- Identity stand-ins for the AES-256-GCM callbacks: they satisfy the
inverse law `aesIdD k n (aesIdE k n m) = some m` exactly. -/
def aesIdE : List Nat → List Nat → List Nat → List Nat := fun _ _ m => m

def aesIdD : List Nat → List Nat → List Nat → Option (List Nat) :=
  fun _ _ m => some m

/-- A fixed 1048576000-byte block holding one padding-marker window at
offset 4 and zeros elsewhere.  A gzip implementation that emits it as a
preamble models a compressor whose output exceeds the largest ladder size
(as real gzip does on an incompressible 1000 MiB chunk, whose deflate
stream also contains marker byte windows). -/
def oversizeBlock : List Nat :=
  List.replicate 4 0 ++ PADDING_MARKER ++ List.replicate 1048575992 0

/-- A lossless compressor stub that prepends `oversizeBlock`. -/
def inflateGz (x : List Nat) : List Nat := oversizeBlock ++ x

/-- The matching decompressor: drop the preamble. -/
def inflateGzInv (y : List Nat) : List Nat := y.drop 1048576000

theorem oversizeBlock_length : oversizeBlock.length = 1048576000 := by
  unfold oversizeBlock
  rw [List.length_append, List.length_append, List.length_replicate,
    List.length_replicate]
  rfl

theorem inflateGz_inv (x : List Nat) : inflateGzInv (inflateGz x) = x := by
  unfold inflateGz inflateGzInv
  exact List.drop_left' oversizeBlock_length

theorem inflate4_length : (inflateGz [0, 0, 0, 0]).length = 1048576004 := by
  unfold inflateGz
  rw [List.length_append, oversizeBlock_length]
  rfl

theorem inflate4_cons : inflateGz [0, 0, 0, 0]
    = 0 :: 0 :: 0 :: 0 :: 255 :: 255 :: 255 :: 255
      :: List.replicate 1048575996 0 := by
  show oversizeBlock ++ [0, 0, 0, 0] = _
  unfold oversizeBlock
  have hrep : List.replicate 1048575992 (0 : Nat) ++ [0, 0, 0, 0]
      = List.replicate 1048575996 0 := by
    rw [show (1048575996 : Nat) = 1048575992 + 4 from rfl, List.replicate_add]
    congr 1
  rw [List.append_assoc, List.append_assoc, hrep]
  rfl

theorem replicate_zero_take_ne_marker (k m : Nat) :
    ¬ (List.replicate k (0 : Nat)).take m = PADDING_MARKER := by
  intro h
  rw [List.take_replicate] at h
  rcases Nat.eq_zero_or_pos (min m k) with h0 | hpos
  · rw [h0] at h
    simp [PADDING_MARKER] at h
  · obtain ⟨k2, hk⟩ : ∃ k2, min m k = k2 + 1 := ⟨min m k - 1, by omega⟩
    rw [hk, List.replicate_succ] at h
    simp [PADDING_MARKER] at h

theorem inflate4_drop8 :
    (inflateGz [0, 0, 0, 0]).drop 8 = List.replicate 1048575996 0 := by
  rw [inflate4_cons]
  rfl

theorem inflate4_footer :
    leDecode4 ((inflateGz [0, 0, 0, 0]).drop
      ((inflateGz [0, 0, 0, 0]).length - 4)) = 0 := by
  rw [inflate4_length]
  have h : (inflateGz [0, 0, 0, 0]).drop (1048576004 - 4) = [0, 0, 0, 0] := by
    show (oversizeBlock ++ [0, 0, 0, 0]).drop 1048576000 = [0, 0, 0, 0]
    exact List.drop_left' oversizeBlock_length
  rw [h]
  rfl

theorem inflate4_window4 :
    ((inflateGz [0, 0, 0, 0]).drop 4).take 4 = PADDING_MARKER := by
  rw [inflate4_cons]
  rfl

theorem inflate4_no_marker_above (j : Nat) (h5 : 5 ≤ j) :
    ¬ ((inflateGz [0, 0, 0, 0]).drop j).take 4 = PADDING_MARKER := by
  by_cases h8 : 8 ≤ j
  · obtain ⟨m, rfl⟩ : ∃ m, j = 8 + m := ⟨j - 8, by omega⟩
    rw [← List.drop_drop, inflate4_drop8, List.drop_replicate]
    exact replicate_zero_take_ne_marker _ _
  · have h567 : j = 5 ∨ j = 6 ∨ j = 7 := by omega
    rcases h567 with rfl | rfl | rfl
    · rw [inflate4_cons,
        show (((0 :: 0 :: 0 :: 0 :: 255 :: 255 :: 255 :: 255
          :: List.replicate 1048575996 (0 : Nat)).drop 5).take 4)
          = [255, 255, 255, 0] from rfl]
      decide
    · rw [inflate4_cons,
        show (((0 :: 0 :: 0 :: 0 :: 255 :: 255 :: 255 :: 255
          :: List.replicate 1048575996 (0 : Nat)).drop 6).take 4)
          = [255, 255, 0, 0] from rfl]
      decide
    · rw [inflate4_cons,
        show (((0 :: 0 :: 0 :: 0 :: 255 :: 255 :: 255 :: 255
          :: List.replicate 1048575996 (0 : Nat)).drop 7).take 4)
          = [255, 0, 0, 0] from rfl]
      decide

/-- The scan of `remove_padding` walks down unchanged past indices whose
window does not match. -/
theorem removePaddingLoop_descend (data : List Nat) :
    ∀ i, 4 ≤ i →
      (∀ j, 5 ≤ j → j ≤ i →
        ¬ ((data.drop j).take 4 = PADDING_MARKER
          ∧ leDecode4 (data.drop (data.length - 4)) ≤ j)) →
      removePaddingLoop data i = removePaddingLoop data 4 := by
  intro i
  induction i using Nat.strong_induction_on with
  | _ i ih =>
    intro h4 hwin
    by_cases hi : i = 4
    · rw [hi]
    · have h5 : 5 ≤ i := by omega
      rw [removePaddingLoop, dif_neg (by omega), if_neg (hwin i h5 le_rfl)]
      exact ih (i - 1) (by omega) (by omega) (fun j hj1 hj2 => hwin j hj1 (by omega))

theorem removePaddingLoop_hit (data : List Nat)
    (hw : (data.drop 4).take 4 = PADDING_MARKER)
    (hf : leDecode4 (data.drop (data.length - 4)) ≤ 4) :
    removePaddingLoop data 4
      = some (leDecode4 (data.drop (data.length - 4))) := by
  rw [removePaddingLoop, dif_neg (by omega), if_pos ⟨hw, hf⟩]

theorem removePaddingLoop_inflate4 :
    removePaddingLoop (inflateGz [0, 0, 0, 0]) 4 = some 0 := by
  rw [removePaddingLoop_hit (inflateGz [0, 0, 0, 0]) inflate4_window4
    (by rw [inflate4_footer]; omega), inflate4_footer]

/-- On the unpadded oversize capsule payload the tail-first scan hits the
marker collision at offset 4 with footer value 0 and truncates everything. -/
theorem remove_padding_eq (data : List Nat) :
    remove_padding data
      = match removePaddingLoop data (data.length - 4 - 1) with
        | some sz => data.take sz
        | none => data := rfl

theorem remove_padding_inflate :
    remove_padding (inflateGz [0, 0, 0, 0]) = [] := by
  rw [remove_padding_eq]
  have hstart : (inflateGz [0, 0, 0, 0]).length - 4 - 1 = 1048575999 := by
    rw [inflate4_length]
  rw [hstart,
    removePaddingLoop_descend (inflateGz [0, 0, 0, 0]) 1048575999 (by norm_num)
      (fun j hj1 hj2 hc => inflate4_no_marker_above j hj1 hc.1),
    removePaddingLoop_inflate4]
  rfl

/-- The main loop on the 4-byte input with the oversize compressor: the
compressed chunk exceeds every ladder size, `find_optimal_capsule_size`
falls back to 1048576000, and `add_deterministic_padding` skips, leaving
the 1048576004-byte payload unpadded. -/
theorem runChunks_inflate4 :
    runChunks inflateGz aesIdE
        ((none : Option (List Nat)).map derive_consensus_key)
        [0, 0, 0, 0] [262144] 0
      = .ok ([(CapsuleHeader.new 0 1048576000 1048576004 false true,
          inflateGz [0, 0, 0, 0])], [0, 0, 0, 0]) := by
  have hch : List.take (min 262144 (List.length ([0, 0, 0, 0] : List Nat)))
      [0, 0, 0, 0] = [0, 0, 0, 0] := rfl
  have hdr : List.drop (min 262144 (List.length ([0, 0, 0, 0] : List Nat)))
      ([0, 0, 0, 0] : List Nat) = [] := rfl
  have henc : encrypt_stream aesIdE
      ((none : Option (List Nat)).map derive_consensus_key) 0 [0, 0, 0, 0]
      = [0, 0, 0, 0] := rfl
  have hT : find_optimal_capsule_size (inflateGz [0, 0, 0, 0]).length 262144
      = 1048576000 := by
    rw [inflate4_length]
    decide
  have hpad : add_deterministic_padding (inflateGz [0, 0, 0, 0])
      (inflateGz [0, 0, 0, 0]).length
      (find_optimal_capsule_size (inflateGz [0, 0, 0, 0]).length 262144) 0
      = .ok (inflateGz [0, 0, 0, 0]) := by
    apply add_padding_skip
    rw [hT, inflate4_length]
    norm_num
  have hrest : runChunks inflateGz aesIdE
      ((none : Option (List Nat)).map derive_consensus_key) [] [] (0 + 1)
      = .ok ([], []) := rfl
  conv_lhs => rw [runChunks]
  rw [if_neg (by decide), hch, hdr]
  dsimp only
  rw [henc, hpad]
  dsimp only
  rw [hrest]
  dsimp only
  rw [hT, inflate4_length]
  rfl

/-- `extract_data_capsule` up to the final checksum comparison. -/
theorem extract_data_capsule_cases (gzD : List Nat → List Nat)
    (aesD : List Nat → List Nat → List Nat → Option (List Nat))
    (set : CapsuleSet) (files : List (List Nat)) (pass : Option (List Nat))
    (out : List Nat) (n : Nat)
    (hcn : set.metadata.capsule_count = n)
    (hcount : n ≤ files.length)
    (hfiles : extractFiles gzD aesD (pass.map derive_consensus_key)
      (files.take n) = .ok out) :
    extract_data_capsule gzD aesD set files pass
      = (if hexEncode (sha256 out) = set.metadata.checksum then .ok out
        else .error .ChecksumMismatch) := by
  unfold extract_data_capsule
  rw [hcn, if_pos hcount]
  simp only [hfiles]

/-- Create on the 4-byte input with the oversize compressor succeeds and
writes a single unpadded capsule file. -/
theorem create_inflate_eq :
    ∃ s2 : CapsuleSet,
      create_data_capsule inflateGz aesIdE [0, 0, 0, 0] none
        = .ok (s2,
          [(CapsuleHeader.new 0 1048576000 1048576004 false true).to_bytes
            ++ inflateGz [0, 0, 0, 0]])
      ∧ s2.metadata.capsule_count = 1
      ∧ s2.metadata.checksum = hexEncode (sha256 [0, 0, 0, 0]) := by
  have hplan4 : determine_chunk_sizes ([0, 0, 0, 0] : List Nat).length
      = [262144] := by
    rw [determine_chunk_sizes_eq_greedy]
    rfl
  have hrun : runChunks inflateGz aesIdE
      ((none : Option (List Nat)).map derive_consensus_key) [0, 0, 0, 0]
      (determine_chunk_sizes ([0, 0, 0, 0] : List Nat).length) 0
      = .ok ([(CapsuleHeader.new 0 1048576000 1048576004 false true,
          inflateGz [0, 0, 0, 0])], [0, 0, 0, 0]) := by
    rw [hplan4]
    exact runChunks_inflate4
  have hcr := create_main_eq inflateGz aesIdE [0, 0, 0, 0] none (by decide)
    _ hrun
  have hmap : List.map (fun it => it.1.to_bytes ++ it.2)
      [((CapsuleHeader.new 0 1048576000 1048576004 false true),
        inflateGz [0, 0, 0, 0])]
      = [(CapsuleHeader.new 0 1048576000 1048576004 false true).to_bytes
          ++ inflateGz [0, 0, 0, 0]] := rfl
  rw [hmap] at hcr
  exact ⟨_, hcr, rfl, rfl⟩

/-- Claim C2 (amended): for every capsule file written by create on
non-empty input whose compressed chunks leave room for padding (the
hypothesis `Hc`, true of real gzip whenever every compressed chunk stays
at most 1048574968 bytes), the total file length equals the header's
`capsule_size` field *plus 44*: the payload after the 44-byte header has
length `capsule_size` (not `capsule_size - 44`), because
`add_deterministic_padding` pads the payload alone up to the full target
size and the 44 header bytes are prepended on top of it.  The padding-room
condition cannot be dropped: the second conjunct shows a compressor whose
chunk exceeds the largest ladder size, where `add_deterministic_padding`
skips and create writes a file of `44 + D` bytes with `D` larger than the
recorded `capsule_size`, so even the `capsule_size + 44` law fails in the
oversize fallback. -/
theorem C2_capsule_file_length_amended (gz : List Nat → List Nat)
    (aesE : List Nat → List Nat → List Nat → List Nat)
    (input : List Nat) (pass : Option (List Nat))
    (hin : ¬ input.length = 0)
    (Hc : ∀ i c, c.length ≤ input.length →
      4 ≤ (gz (encrypt_stream aesE (pass.map derive_consensus_key) i c)).length
        ∧ (gz (encrypt_stream aesE (pass.map derive_consensus_key) i c)).length
            + 1032 ≤ 1048576000) :
    (∃ (s : CapsuleSet) (files : List (List Nat)),
      create_data_capsule gz aesE input pass = .ok (s, files)
      ∧ ∀ (j : Nat) (f : List Nat), files[j]? = some f →
          ∃ h, CapsuleHeader.from_bytes (f.take CAPSULE_HEADER_SIZE) = .ok h
            ∧ f.length = h.capsule_size + CAPSULE_HEADER_SIZE
            ∧ (f.drop CAPSULE_HEADER_SIZE).length = h.capsule_size)
    ∧ (∃ (s2 : CapsuleSet) (f : List Nat) (h2 : CapsuleHeader),
      create_data_capsule inflateGz aesIdE [0, 0, 0, 0] none = .ok (s2, [f])
      ∧ CapsuleHeader.from_bytes (f.take CAPSULE_HEADER_SIZE) = .ok h2
      ∧ h2.capsule_size = 1048576000
      ∧ f.length = h2.capsule_size + 48
      ∧ ¬ f.length = h2.capsule_size + CAPSULE_HEADER_SIZE) := by
  have hB : ∃ (s2 : CapsuleSet) (f : List Nat) (h2 : CapsuleHeader),
      create_data_capsule inflateGz aesIdE [0, 0, 0, 0] none = .ok (s2, [f])
      ∧ CapsuleHeader.from_bytes (f.take CAPSULE_HEADER_SIZE) = .ok h2
      ∧ h2.capsule_size = 1048576000
      ∧ f.length = h2.capsule_size + 48
      ∧ ¬ f.length = h2.capsule_size + CAPSULE_HEADER_SIZE := by
    obtain ⟨s2, hcr, hcnt, hck⟩ := create_inflate_eq
    have hhl : (CapsuleHeader.new 0 1048576000 1048576004 false true).to_bytes.length
        = CAPSULE_HEADER_SIZE := new_to_bytes_length _ _ _ _ _
    refine ⟨s2, _,
      truncHeader (CapsuleHeader.new 0 1048576000 1048576004 false true),
      hcr, ?_, ?_, ?_, ?_⟩
    · rw [List.take_left' hhl]
      exact from_bytes_new _ _ _ _ _
    · rfl
    · rw [List.length_append, hhl, inflate4_length]
      rfl
    · rw [List.length_append, hhl, inflate4_length]
      decide
  refine ⟨?_, hB⟩
  set key := pass.map derive_consensus_key with hkey
  set plan := determine_chunk_sizes input.length with hplandef
  have hplanmem : ∀ t ∈ plan, t ∈ CAPSULE_SIZES := by
    intro t ht
    exact mem_determine_chunk_sizes ht
  have hsum : input.length ≤ plan.sum := sum_determine_chunk_sizes input.length
  obtain ⟨items, hrun, hlen, hprops⟩ :=
    runChunks_ok gz aesE key input.length Hc plan input 0 hplanmem le_rfl hsum
  have hcreate := create_main_eq gz aesE input pass hin items hrun
  refine ⟨_, _, hcreate, ?_⟩
  intro j f hf
  rw [List.getElem?_map] at hf
  cases hj : items[j]? with
  | none =>
    rw [hj] at hf
    exact absurd hf (by simp)
  | some it =>
    obtain ⟨hd, pay⟩ := it
    rw [hj] at hf
    have hf2 : some (hd.to_bytes ++ pay) = some f := hf
    have hfval : f = hd.to_bytes ++ pay := (Option.some.inj hf2).symm
    obtain ⟨hpay, hhd⟩ := hprops j hd pay hj
    rw [Nat.zero_add] at hpay hhd
    have hjlt : j < items.length := (List.getElem?_eq_some.mp hj).1
    have hjplan : j < plan.length :=
      lt_of_lt_of_le (hlen ▸ hjlt) (chunksOf_length_le input plan)
    have htj : plan.getD j 0 ∈ plan := by
      rw [List.getD_eq_getElem plan 0 hjplan]
      exact List.getElem_mem hjplan
    have htb := ladder_ge (hplanmem _ htj)
    have hub : find_optimal_capsule_size
        (gz (encrypt_stream aesE key j ((chunksOf input plan).getD j []))).length
        (plan.getD j 0) ≤ 1048576000 :=
      find_optimal_ub _ _ htb.2
    have hhl : hd.to_bytes.length = CAPSULE_HEADER_SIZE := by
      rw [hhd]
      exact new_to_bytes_length _ _ _ _ _
    have htake : f.take CAPSULE_HEADER_SIZE = hd.to_bytes := by
      rw [hfval]
      exact List.take_left' hhl
    rw [htake, hhd, from_bytes_new]
    refine ⟨_, rfl, ?_, ?_⟩
    · have hcs : (truncHeader (CapsuleHeader.new j
          (find_optimal_capsule_size
            (gz (encrypt_stream aesE key j ((chunksOf input plan).getD j []))).length
            (plan.getD j 0))
          pay.length key.isSome true)).capsule_size
          = find_optimal_capsule_size
            (gz (encrypt_stream aesE key j ((chunksOf input plan).getD j []))).length
            (plan.getD j 0) % U32 := rfl
      rw [hcs, Nat.mod_eq_of_lt (by unfold U32; omega), hfval,
        List.length_append, hhl, hpay]
      omega
    · have hcs : (truncHeader (CapsuleHeader.new j
          (find_optimal_capsule_size
            (gz (encrypt_stream aesE key j ((chunksOf input plan).getD j []))).length
            (plan.getD j 0))
          pay.length key.isSome true)).capsule_size
          = find_optimal_capsule_size
            (gz (encrypt_stream aesE key j ((chunksOf input plan).getD j []))).length
            (plan.getD j 0) % U32 := rfl
      have hdrop : f.drop CAPSULE_HEADER_SIZE = pay := by
        rw [hfval]
        exact List.drop_left' hhl
      rw [hcs, Nat.mod_eq_of_lt (by unfold U32; omega), hdrop, hpay]

/-- Claim C2 counterexample: create on the 1-byte input `[0]` with a gzip
stub that prepends 4 bytes produces a single capsule file of 262188 bytes
whose header records `capsule_size = 262144`: the file length is
`capsule_size + 44`, not `capsule_size`. -/
theorem C2_capsule_size_counterexample :
    ∃ (s : CapsuleSet) (files : List (List Nat)) (f : List Nat)
      (h : CapsuleHeader),
      create_data_capsule (fun x => [0, 0, 0, 0] ++ x) (fun _ _ m => m) [0] none
          = .ok (s, files)
        ∧ files[0]? = some f
        ∧ CapsuleHeader.from_bytes (f.take CAPSULE_HEADER_SIZE) = .ok h
        ∧ h.capsule_size = 262144
        ∧ f.length = 262188
        ∧ ¬ f.length = h.capsule_size := by
  have Hc : ∀ i c, c.length ≤ ([0] : List Nat).length →
      4 ≤ ((fun x => [0, 0, 0, 0] ++ x) (encrypt_stream (fun _ _ m => m)
        ((none : Option (List Nat)).map derive_consensus_key) i c)).length
      ∧ ((fun x => [0, 0, 0, 0] ++ x) (encrypt_stream (fun _ _ m => m)
        ((none : Option (List Nat)).map derive_consensus_key) i c)).length
          + 1032 ≤ 1048576000 := by
    intro i c hlc
    have he : encrypt_stream (fun _ _ m => m)
        ((none : Option (List Nat)).map derive_consensus_key) i c = c := rfl
    simp only [he, List.length_cons, List.length_nil, List.length_append] at hlc ⊢
    omega
  have hplan : determine_chunk_sizes ([0] : List Nat).length = [262144] := by
    rw [determine_chunk_sizes_eq_greedy]
    rfl
  obtain ⟨items, hrun, hlen, hprops⟩ :=
    runChunks_ok (fun x => [0, 0, 0, 0] ++ x) (fun _ _ m => m)
      ((none : Option (List Nat)).map derive_consensus_key) ([0] : List Nat).length
      Hc [262144] [0] 0 (by decide) le_rfl (by decide)
  have hlen1 : items.length = 1 := by
    rw [hlen]
    rfl
  obtain ⟨it, hitems⟩ := List.length_eq_one.mp hlen1
  obtain ⟨hd, pay⟩ := it
  have hj0 : items[0]? = some (hd, pay) := by
    rw [hitems]
    rfl
  obtain ⟨hpay, hhd⟩ := hprops 0 hd pay hj0
  have hT : find_optimal_capsule_size
      ((fun x => [0, 0, 0, 0] ++ x) (encrypt_stream (fun _ _ m => m)
        ((none : Option (List Nat)).map derive_consensus_key) (0 + 0)
        ((chunksOf [0] [262144]).getD 0 []))).length
      (([262144] : List Nat).getD 0 0) = 262144 := by decide
  rw [hT] at hpay hhd
  have hrun2 : runChunks (fun x => [0, 0, 0, 0] ++ x) (fun _ _ m => m)
      ((none : Option (List Nat)).map derive_consensus_key) [0]
      (determine_chunk_sizes ([0] : List Nat).length) 0 = .ok (items, [0]) := by
    rw [hplan]
    exact hrun
  have hcreate := create_main_eq (fun x => [0, 0, 0, 0] ++ x) (fun _ _ m => m)
    [0] none (by decide) items hrun2
  have hhl : hd.to_bytes.length = CAPSULE_HEADER_SIZE := by
    rw [hhd]
    exact new_to_bytes_length _ _ _ _ _
  have hfiles0 : (items.map fun it => it.1.to_bytes ++ it.2)[0]?
      = some (hd.to_bytes ++ pay) := by
    rw [hitems]
    rfl
  refine ⟨_, _, hd.to_bytes ++ pay,
    truncHeader (CapsuleHeader.new 0 262144 pay.length
      ((none : Option (List Nat)).map derive_consensus_key).isSome true),
    hcreate, hfiles0, ?_, ?_, ?_, ?_⟩
  · rw [List.take_left' hhl, hhd]
    exact from_bytes_new _ _ _ _ _
  · rfl
  · rw [List.length_append, hhl, hpay]
    rfl
  · rw [List.length_append, hhl, hpay]
    decide

theorem C2_capsule_file_length_amended_witness :
    (¬ ([3] : List Nat).length = 0)
    ∧ (∀ i c, c.length ≤ ([3] : List Nat).length →
        4 ≤ ((fun x => [0, 0, 0, 0] ++ x) (encrypt_stream (fun _ _ m => m)
          ((none : Option (List Nat)).map derive_consensus_key) i c)).length
        ∧ ((fun x => [0, 0, 0, 0] ++ x) (encrypt_stream (fun _ _ m => m)
          ((none : Option (List Nat)).map derive_consensus_key) i c)).length
            + 1032 ≤ 1048576000)
    ∧ ((∃ (s : CapsuleSet) (files : List (List Nat)),
        create_data_capsule (fun x => [0, 0, 0, 0] ++ x) (fun _ _ m => m)
            [3] none = .ok (s, files)
        ∧ ∀ (j : Nat) (f : List Nat), files[j]? = some f →
            ∃ h, CapsuleHeader.from_bytes (f.take CAPSULE_HEADER_SIZE) = .ok h
              ∧ f.length = h.capsule_size + CAPSULE_HEADER_SIZE
              ∧ (f.drop CAPSULE_HEADER_SIZE).length = h.capsule_size)
      ∧ (∃ (s2 : CapsuleSet) (f : List Nat) (h2 : CapsuleHeader),
        create_data_capsule inflateGz aesIdE [0, 0, 0, 0] none = .ok (s2, [f])
        ∧ CapsuleHeader.from_bytes (f.take CAPSULE_HEADER_SIZE) = .ok h2
        ∧ h2.capsule_size = 1048576000
        ∧ f.length = h2.capsule_size + 48
        ∧ ¬ f.length = h2.capsule_size + CAPSULE_HEADER_SIZE)) := by
  have hc : ∀ i c, c.length ≤ ([3] : List Nat).length →
      4 ≤ ((fun x => [0, 0, 0, 0] ++ x) (encrypt_stream (fun _ _ m => m)
        ((none : Option (List Nat)).map derive_consensus_key) i c)).length
      ∧ ((fun x => [0, 0, 0, 0] ++ x) (encrypt_stream (fun _ _ m => m)
        ((none : Option (List Nat)).map derive_consensus_key) i c)).length
          + 1032 ≤ 1048576000 := by
    intro i c hlc
    have he : encrypt_stream (fun _ _ m => m)
        ((none : Option (List Nat)).map derive_consensus_key) i c = c := rfl
    simp only [he, List.length_cons, List.length_nil, List.length_append] at hlc ⊢
    omega
  exact ⟨by decide, hc,
    C2_capsule_file_length_amended (fun x => [0, 0, 0, 0] ++ x)
      (fun _ _ m => m) [3] none (by decide) hc⟩

theorem capsule_round_trip_eq (gz gzD : List Nat → List Nat)
    (aesE : List Nat → List Nat → List Nat → List Nat)
    (aesD : List Nat → List Nat → List Nat → Option (List Nat))
    (input : List Nat) (pass : Option (List Nat)) :
    capsule_round_trip gz gzD aesE aesD input pass
      = match create_data_capsule gz aesE input pass with
        | .error e => .error e
        | .ok (set, files) => extract_data_capsule gzD aesD set files pass := rfl

/-- Claim C1 counterexample: the round trip is not universal.  The codec
pair `inflateGz`/`inflateGzInv` is lossless (the inverse laws hold exactly)
and the identity cipher satisfies its inverse law, yet
`extract(create([0,0,0,0], none), none)` is not `[0,0,0,0]`: the compressed
chunk exceeds the largest ladder size, `find_optimal_capsule_size` falls
back to 1048576000, `add_deterministic_padding` silently skips because the
payload is already larger, and on extraction the tail-first padding scan
finds a marker collision inside the raw compressed stream and truncates the
payload to the empty list, so the run ends in an error instead of the
input.  Real gzip reaches this regime on incompressible chunks near
1000 MiB, whose deflate stream likewise exceeds the ladder and contains
marker windows. -/
theorem C1_round_trip_counterexample :
    (∀ x, inflateGzInv (inflateGz x) = x)
    ∧ (∀ k n m, aesIdD k n (aesIdE k n m) = some m)
    ∧ ¬ capsule_round_trip inflateGz inflateGzInv aesIdE aesIdD
        [0, 0, 0, 0] none = .ok [0, 0, 0, 0] := by
  refine ⟨inflateGz_inv, fun k n m => rfl, ?_⟩
  intro hEq
  obtain ⟨s2, hcr, hcnt, hck⟩ := create_inflate_eq
  rw [capsule_round_trip_eq, hcr] at hEq
  dsimp only at hEq
  have hhl : (CapsuleHeader.new 0 1048576000 1048576004 false true).to_bytes.length
      = CAPSULE_HEADER_SIZE := new_to_bytes_length _ _ _ _ _
  have hext : extractFiles inflateGzInv aesIdD
      ((none : Option (List Nat)).map derive_consensus_key)
      (([(CapsuleHeader.new 0 1048576000 1048576004 false true).to_bytes
        ++ inflateGz [0, 0, 0, 0]] : List (List Nat)).take 1) = .ok [] := by
    have h1 : (([(CapsuleHeader.new 0 1048576000 1048576004 false true).to_bytes
        ++ inflateGz [0, 0, 0, 0]] : List (List Nat)).take 1)
        = [(CapsuleHeader.new 0 1048576000 1048576004 false true).to_bytes
          ++ inflateGz [0, 0, 0, 0]] := rfl
    rw [h1]
    have h44 : ¬ ((CapsuleHeader.new 0 1048576000 1048576004 false true).to_bytes
        ++ inflateGz [0, 0, 0, 0]).length < CAPSULE_HEADER_SIZE := by
      rw [List.length_append, hhl, inflate4_length]
      unfold CAPSULE_HEADER_SIZE
      omega
    have hfb : CapsuleHeader.from_bytes
        (((CapsuleHeader.new 0 1048576000 1048576004 false true).to_bytes
          ++ inflateGz [0, 0, 0, 0]).take CAPSULE_HEADER_SIZE)
        = .ok (truncHeader (CapsuleHeader.new 0 1048576000 1048576004 false true)) := by
      rw [List.take_left' hhl]
      exact from_bytes_new _ _ _ _ _
    have hdec : decrypt_stream aesIdD
        ((none : Option (List Nat)).map derive_consensus_key)
        (inflateGzInv (remove_padding
          (((CapsuleHeader.new 0 1048576000 1048576004 false true).to_bytes
            ++ inflateGz [0, 0, 0, 0]).drop CAPSULE_HEADER_SIZE))) = .ok [] := by
      rw [List.drop_left' hhl, remove_padding_inflate]
      rfl
    have hrest : extractFiles inflateGzInv aesIdD
        ((none : Option (List Nat)).map derive_consensus_key) [] = .ok [] := rfl
    simpa using extractFiles_cons inflateGzInv aesIdD
      ((none : Option (List Nat)).map derive_consensus_key) _ []
      (truncHeader (CapsuleHeader.new 0 1048576000 1048576004 false true)) [] []
      h44 hfb hdec hrest
  rw [extract_data_capsule_cases inflateGzInv aesIdD s2 _ none [] 1 hcnt
    (by simp) hext] at hEq
  split_ifs at hEq
  simp at hEq
